import Mathlib

/-!
Verification of the pattern compiler / matcher core of the
`@marianmeres/simple-router` repository (`src/route.ts`, class `SimpleRoute`).

The code is shallowly embedded: URL and pattern strings are manipulated at the
character-list level (`String` in Lean 4.14 is a structure over `List Char`,
so all operations below compute by `decide`/`rfl`), JavaScript's `RegExp`
objects synthesised by the compiler are represented by the small inductive
`SegTest`, user-supplied constraint sub-patterns are interpreted by a small
total regular-expression engine (`RE`, Brzozowski derivatives) covering the
sub-language the route compiler cares about (character classes, `.`, escapes,
postfix `* + ?`), and the fallible JS built-in `decodeURIComponent` is modelled
as an `Option`-returning strict percent/UTF-8 decoder (`pctDecode`).
-/

namespace SimpleRoute

/-- JS `\w` (ASCII word character). -/
def isWordChar (c : Char) : Bool := c.isAlpha || c.isDigit || c = '_'

/-- Characters matched by an (non-dotAll) JS `.`: anything but a line terminator. -/
def jsDot (c : Char) : Bool :=
  !(c = '\n' || c = '\r' || c.toNat = 0x2028 || c.toNat = 0x2029)

/-- Whitespace stripped by JS `String.prototype.trim` (ASCII subset; the
exotic Unicode space characters never occur in the inputs considered here). -/
def isJsSpace (c : Char) : Bool :=
  c = ' ' || c = '\t' || c = '\n' || c = '\r' || c.toNat = 0x0B || c.toNat = 0x0C

/-- JS `str.trim()`. -/
def jsTrim (l : List Char) : List Char :=
  ((l.dropWhile isJsSpace).reverse.dropWhile isJsSpace).reverse

/-- JS `str.split(sep)` for a single-character separator: splits on every
occurrence, keeping empty pieces (`"".split(s) = [""]`). -/
def splitChar : List Char → Char → List (List Char)
  | [], _ => [[]]
  | c :: rest, sep =>
    match splitChar rest sep with
    | [] => if c = sep then [[], []] else [[c]]
    | h :: t => if c = sep then [] :: h :: t else (c :: h) :: t

/-- `SimpleRoute.#sanitizeAndSplit`: trim, strip leading/trailing separator
runs, split on `/`, drop empty segments. -/
def sanitizeAndSplit (l : List Char) : List (List Char) :=
  let t := jsTrim l
  let t1 := t.dropWhile (· = '/')
  let t2 := (t1.reverse.dropWhile (· = '/')).reverse
  (splitChar t2 '/').filter (· ≠ [])

/-- Value of an ASCII hex digit. -/
def hexVal (c : Char) : Option Nat :=
  if '0' ≤ c ∧ c ≤ '9' then some (c.toNat - '0'.toNat)
  else if 'a' ≤ c ∧ c ≤ 'f' then some (c.toNat - 'a'.toNat + 10)
  else if 'A' ≤ c ∧ c ≤ 'F' then some (c.toNat - 'A'.toNat + 10)
  else none

/-- Read one `%XX` continuation byte (must lie in `0x80..0xBF`). -/
def contByte : List Char → Option (Nat × List Char)
  | '%' :: h1 :: h2 :: rest =>
    match hexVal h1, hexVal h2 with
    | some a, some b =>
      let v := 16 * a + b
      if 0x80 ≤ v ∧ v ≤ 0xBF then some (v, rest) else none
    | _, _ => none
  | _ => none

/-- Model of JS `decodeURIComponent`: decode `%XX` escape runs as strict UTF-8
(shortest form, no surrogates, ≤ U+10FFFF), pass other characters through,
fail (`none`, modelling the thrown `URIError`) on any malformed escape.
The fuel argument is the input length; every step consumes at least one
character, so the `0`-fuel branch is unreachable from `pctDecode`. -/
def pctDecodeAux : Nat → List Char → Option (List Char)
  | _, [] => some []
  | 0, _ :: _ => none
  | fuel + 1, '%' :: h1 :: h2 :: rest =>
    match hexVal h1, hexVal h2 with
    | some a, some b =>
      let v := 16 * a + b
      if v < 0x80 then (pctDecodeAux fuel rest).map (Char.ofNat v :: ·)
      else if 0xC2 ≤ v ∧ v ≤ 0xDF then
        match contByte rest with
        | some (v2, rest2) =>
          (pctDecodeAux fuel rest2).map
            (Char.ofNat ((v - 0xC0) * 0x40 + (v2 - 0x80)) :: ·)
        | none => none
      else if 0xE0 ≤ v ∧ v ≤ 0xEF then
        match contByte rest with
        | some (v2, rest2) =>
          if (if v = 0xE0 then 0xA0 else 0x80) ≤ v2 ∧
              v2 ≤ (if v = 0xED then 0x9F else 0xBF) then
            match contByte rest2 with
            | some (v3, rest3) =>
              (pctDecodeAux fuel rest3).map
                (Char.ofNat ((v - 0xE0) * 0x1000 + (v2 - 0x80) * 0x40 + (v3 - 0x80)) :: ·)
            | none => none
          else none
        | none => none
      else if 0xF0 ≤ v ∧ v ≤ 0xF4 then
        match contByte rest with
        | some (v2, rest2) =>
          if (if v = 0xF0 then 0x90 else 0x80) ≤ v2 ∧
              v2 ≤ (if v = 0xF4 then 0x8F else 0xBF) then
            match contByte rest2 with
            | some (v3, rest3) =>
              match contByte rest3 with
              | some (v4, rest4) =>
                (pctDecodeAux fuel rest4).map
                  (Char.ofNat ((v - 0xF0) * 0x40000 + (v2 - 0x80) * 0x1000 +
                    (v3 - 0x80) * 0x40 + (v4 - 0x80)) :: ·)
              | none => none
            | none => none
          else none
        | none => none
      else none
    | _, _ => none
  | _ + 1, '%' :: rest => if rest.length ≤ 1 then none else none
  | fuel + 1, c :: rest => (pctDecodeAux fuel rest).map (c :: ·)

/-- Model of JS `decodeURIComponent` on a character list. -/
def pctDecode (l : List Char) : Option (List Char) :=
  pctDecodeAux l.length l

/-- Overwrite-or-append assignment `obj[k] = v` on a JS object represented as
an insertion-ordered association list. -/
def setKV (m : List (String × String)) (k v : String) : List (String × String) :=
  if m.any (·.1 = k) then m.map (fun p => if p.1 = k then (k, v) else p)
  else m ++ [(k, v)]

/-- Lookup in the result mapping. -/
def getKV (m : List (String × String)) (k : String) : Option String :=
  match m with
  | [] => none
  | p :: rest => if p.1 = k then some p.2 else getKV rest k

/-- JS `kvpair.split("=")` destructured as `[k, v = ""]`: the key is the text
before the first `=`, the value the piece between the first and second `=`
(defaulting to empty when no `=` is present). -/
def kvSplit (pair : List Char) : List Char × List Char :=
  let parts := splitChar pair '='
  (parts.headD [], (parts.get? 1).getD [])

/-- One step of `SimpleRoute.parseQueryString`'s reduce: decode key and value
inside a single `try`, fall back to the raw pair if either decode fails, drop
pairs with an empty (raw) key. -/
def qsPair (memo : List (String × String)) (pair : List Char) : List (String × String) :=
  let kv := kvSplit pair
  let k := kv.1
  let v := kv.2
  if k = [] then memo
  else
    match pctDecode k, (if v = [] then some [] else pctDecode v) with
    | some dk, some dv => setKV memo (String.mk dk) (String.mk dv)
    | _, _ => setKV memo (String.mk k) (String.mk v)

/-- `SimpleRoute.parseQueryString`: strip one leading and one trailing `&`,
split on `&`, fold the pairs into the mapping. -/
def parseQueryString (s : List Char) : List (String × String) :=
  let s1 := if s.head? = some '&' then s.drop 1 else s
  let s2 := if s1.getLast? = some '&' then s1.dropLast else s1
  (splitChar s2 '&').foldl qsPair []

/-! ### Constraint regular expressions

`new RegExp("^" + pat + "$")` on a user constraint `pat` is modelled in two
parts.  In the compiler, success of the `new RegExp` construction is
abstracted as a predicate on `pat` (the `V` parameter of `compileSeg`), so
the compile-error characterisation holds for the actual ECMAScript validity
predicate; the executable instance `regexValid` parses `pat` into the AST
`RE`.  The parser follows the ECMAScript Annex B pattern grammar on a large
fragment: literal characters (including `]`, `{`, `}` where the grammar
allows them), `.`, escapes, character classes with ranges (rejecting
out-of-order ranges such as `[z-a]`, the `SyntaxError` `new RegExp`
throws), class negation, groups `(...)` and `(?:...)`, alternation `|`, the
quantifiers `*`, `+`, `?`, `{n}`, `{n,}`, `{n,m}` (rejecting out-of-order
bounds such as `{2,1}` and a braced quantifier with nothing to repeat) and
lazy `?` markers.  Assertions (`^`, `$`, `\b`, `\B`, lookarounds, named
groups) and backreferences are outside the executable fragment and are
rejected by the parser rather than reinterpreted; inside a character class
`\b` is the backspace character, as in ECMAScript.  Acceptance mirrors the
source's `"^" + pat + "$"` wrapping faithfully: `|` binds weaker than the
anchors, so only the first top-level alternative is start-anchored and only
the last is end-anchored (`anchoredTest`). -/

/-- Regular-expression AST; `cls` carries the accepted-character predicate. -/
inductive RE where
  | eps : RE
  | void : RE
  | cls (p : Char → Bool) : RE
  | seq (a b : RE) : RE
  | alt (a b : RE) : RE
  | star (a : RE) : RE

/-- Does the language of `r` contain the empty word? -/
def RE.nullable : RE → Bool
  | .eps => true
  | .void => false
  | .cls _ => false
  | .seq a b => a.nullable && b.nullable
  | .alt a b => a.nullable || b.nullable
  | .star _ => true

/-- Brzozowski derivative of `r` by the character `c`. -/
def RE.deriv : RE → Char → RE
  | .eps, _ => .void
  | .void, _ => .void
  | .cls p, c => if p c then .eps else .void
  | .seq a b, c =>
    if a.nullable then .alt (.seq (a.deriv c) b) (b.deriv c)
    else .seq (a.deriv c) b
  | .alt a b, c => .alt (a.deriv c) (b.deriv c)
  | .star a, c => .seq (a.deriv c) (.star a)

/-- Full-string acceptance (the `^...$` anchoring of the synthesised test). -/
def RE.accepts (r : RE) (l : List Char) : Bool :=
  (l.foldl RE.deriv r).nullable

/-- Parse a nonempty run of decimal digits. -/
def parseDigits (l : List Char) : Option (Nat × List Char) :=
  let s := l.span (fun c => c.isDigit)
  if s.1.isEmpty then none
  else some (s.1.foldl (fun a c => a * 10 + (c.toNat - 48)) 0, s.2)

/-- Recognise the braced-quantifier shapes `{n}`, `{n,}`, `{n,m}` after the
opening brace, returning the bounds (upper `none` = unbounded) and the rest
of the input; anything else is not a braced quantifier. -/
def bracedQuant (l : List Char) : Option (Nat × Option Nat × List Char) :=
  match parseDigits l with
  | none => none
  | some (n, rest) =>
    match rest with
    | '}' :: rest2 => some (n, some n, rest2)
    | ',' :: '}' :: rest2 => some (n, none, rest2)
    | ',' :: rest2 =>
      match parseDigits rest2 with
      | some (m, '}' :: rest3) => some (n, some m, rest3)
      | _ => none
    | _ => none

/-- `n`-fold repetition of `r`. -/
def repExact (r : RE) : Nat → RE
  | 0 => .eps
  | n + 1 => .seq r (repExact r n)

/-- Up to `n` repetitions of `r`. -/
def repUpTo (r : RE) : Nat → RE
  | 0 => .eps
  | n + 1 => .seq (.alt r .eps) (repUpTo r n)

/-- Consume a lazy-quantifier marker `?`; laziness does not change the
accepted language. -/
def skipLazy : List Char → List Char
  | '?' :: rest => rest
  | l => l

/-- Apply a quantifier to the preceding atom, if one follows.  A `{` that
does not form a braced quantifier is left for the literal-atom path (Annex
B); out-of-order bounds `{n,m}` with `n > m` are the `SyntaxError`
`new RegExp` throws. -/
def applyQuant (r : RE) (l : List Char) : Option (RE × List Char) :=
  match l with
  | '*' :: rest => some (.star r, skipLazy rest)
  | '+' :: rest => some (.seq r (.star r), skipLazy rest)
  | '?' :: rest => some (.alt r .eps, skipLazy rest)
  | '{' :: rest =>
    match bracedQuant rest with
    | none => some (r, l)
    | some (n, none, rest2) => some (.seq (repExact r n) (.star r), skipLazy rest2)
    | some (n, some m, rest2) =>
      if n ≤ m then some (.seq (repExact r n) (repUpTo r (m - n)), skipLazy rest2)
      else none
  | _ => some (r, l)

/-- A member of a character class: a single character (usable as a range
endpoint) or a class escape. -/
inductive ClassItem where
  | single (c : Char)
  | esc (p : Char → Bool)

/-- Accepted-character predicate of a class member. -/
def ClassItem.pred : ClassItem → Char → Bool
  | .single c, x => x = c
  | .esc p, x => p x

/-- Escapes inside a character class; there, `\b` is the backspace
character. -/
def classEsc (e : Char) : ClassItem :=
  if e = 'd' then .esc (fun c => c.isDigit)
  else if e = 'D' then .esc (fun c => !c.isDigit)
  else if e = 'w' then .esc isWordChar
  else if e = 'W' then .esc (fun c => !isWordChar c)
  else if e = 's' then .esc isJsSpace
  else if e = 'S' then .esc (fun c => !isJsSpace c)
  else if e = 'n' then .single '\n'
  else if e = 't' then .single '\t'
  else if e = 'r' then .single '\r'
  else if e = 'f' then .single (Char.ofNat 12)
  else if e = 'v' then .single (Char.ofNat 11)
  else if e = 'b' then .single (Char.ofNat 8)
  else if e = '0' then .single (Char.ofNat 0)
  else .single e

/-- One class member: an escape or a literal character.  Octal escapes
`\1`..`\9` are outside the executable fragment. -/
def classAtom : List Char → Option (ClassItem × List Char)
  | [] => none
  | '\\' :: e :: rest =>
    if e.isDigit && e ≠ '0' then none else some (classEsc e, rest)
  | '\\' :: [] => none
  | c :: rest => some (.single c, rest)

/-- Parse the members of a character class up to the closing `]`, returning
the accepted-character predicate and the rest of the input.  A range whose
endpoints are both single characters must be in order (`[z-a]` is the
`SyntaxError` `new RegExp` throws); a range with a class-escape endpoint
falls back to literal members, as in Annex B. -/
def classItems : Nat → List Char → Option ((Char → Bool) × List Char)
  | 0, _ => none
  | _ + 1, ']' :: rest => some (fun _ => false, rest)
  | fuel + 1, l =>
    match classAtom l with
    | none => none
    | some (item, rest) =>
      match rest with
      | '-' :: ']' :: rest2 => some (fun c => item.pred c || c = '-', rest2)
      | '-' :: rest2 =>
        match classAtom rest2 with
        | none => none
        | some (item2, rest3) =>
          match item, item2 with
          | .single a, .single b =>
            if a ≤ b then
              (classItems fuel rest3).map
                (fun pr => (fun c => (decide (a ≤ c) && decide (c ≤ b)) || pr.1 c, pr.2))
            else none
          | i1, i2 =>
            (classItems fuel rest3).map
              (fun pr => (fun c => i1.pred c || c = '-' || i2.pred c || pr.1 c, pr.2))
      | _ =>
        (classItems fuel rest).map (fun pr => (fun c => item.pred c || pr.1 c, pr.2))

/-- Escapes usable as one atom outside a class.  The assertions `\b` and
`\B`, backreferences `\1`..`\9` and `\k` are outside the executable
fragment. -/
def atomEsc (e : Char) : Option (Char → Bool) :=
  if e = 'b' || e = 'B' || e = 'k' || (e.isDigit && e ≠ '0') then none
  else some (classEsc e).pred

mutual
/-- Alternatives separated by `|`; stops before an unmatched `)`. -/
def parseDisj : Nat → List Char → Option (RE × List Char)
  | 0, _ => none
  | fuel + 1, l =>
    match parseSeq fuel l with
    | none => none
    | some (r, rest) =>
      match rest with
      | '|' :: rest2 =>
        match parseDisj fuel rest2 with
        | some (r2, rest3) => some (.alt r r2, rest3)
        | none => none
      | _ => some (r, rest)

/-- A possibly empty sequence of quantified atoms, up to `|`, `)` or the
end of the input. -/
def parseSeq : Nat → List Char → Option (RE × List Char)
  | 0, _ => none
  | fuel + 1, l =>
    match l with
    | [] => some (.eps, [])
    | ')' :: _ => some (.eps, l)
    | '|' :: _ => some (.eps, l)
    | _ :: _ =>
      match parseAtomRec fuel l with
      | none => none
      | some (r, rest) =>
        match applyQuant r rest with
        | none => none
        | some (rq, rest2) =>
          match parseSeq fuel rest2 with
          | some (r2, rest3) => some (.seq rq r2, rest3)
          | none => none

/-- One atom: `.`, a character class, an escape, a group or a literal
character.  A braced quantifier with nothing to repeat is the Annex B
`SyntaxError`; the assertions `^`, `$`, lookarounds and named groups are
outside the executable fragment. -/
def parseAtomRec : Nat → List Char → Option (RE × List Char)
  | 0, _ => none
  | fuel + 1, l =>
    match l with
    | [] => none
    | '(' :: '?' :: ':' :: rest =>
      match parseDisj fuel rest with
      | some (r, ')' :: rest2) => some (r, rest2)
      | _ => none
    | '(' :: '?' :: _ => none
    | '(' :: rest =>
      match parseDisj fuel rest with
      | some (r, ')' :: rest2) => some (r, rest2)
      | _ => none
    | '.' :: rest => some (.cls jsDot, rest)
    | '[' :: '^' :: rest =>
      (classItems (rest.length + 1) rest).map
        (fun pr => (.cls (fun c => !pr.1 c), pr.2))
    | '[' :: rest =>
      (classItems (rest.length + 1) rest).map (fun pr => (.cls pr.1, pr.2))
    | '\\' :: e :: rest => (atomEsc e).map (fun p => ((.cls p : RE), rest))
    | '{' :: rest =>
      match bracedQuant rest with
      | some _ => none
      | none => some (.cls (fun x => x = '{'), rest)
    | c :: rest =>
      if c = '^' || c = '$' || c = '\\' || c = '.' || c = '*' || c = '+' ||
          c = '?' || c = '(' || c = ')' || c = '[' || c = '|' then none
      else some (.cls (fun x => x = c), rest)
end

/-- Model of `new RegExp(pat)` construction on the executable fragment:
`none` models the thrown `SyntaxError`.  The fuel `3 * |pat| + 3` dominates
the recursion depth: each disjunction–sequence–atom descent consumes at
least one input character. -/
def regexParse (pat : List Char) : Option RE :=
  match parseDisj (3 * pat.length + 3) pat with
  | some (r, []) => some r
  | _ => none

/-- Executable instance of the `new RegExp("^" + pat + "$")` validity
predicate. -/
def regexValid (pat : List Char) : Bool :=
  (regexParse pat).isSome

/-- The top-level alternatives of a parsed pattern (`|` binds weakest, so
`.alt` nodes at the root come only from top-level `|`). -/
def topAlts : RE → List RE
  | .alt a b => a :: topAlts b
  | r => [r]

/-- Does `r` accept some prefix of `s`? -/
def existsTake (r : RE) (s : List Char) : Bool :=
  (List.range (s.length + 1)).any (fun k => r.accepts (s.take k))

/-- Does `r` accept some suffix of `s`? -/
def existsDrop (r : RE) (s : List Char) : Bool :=
  (List.range (s.length + 1)).any (fun k => r.accepts (s.drop k))

/-- Does `r` accept some contiguous substring of `s`? -/
def existsInfix (r : RE) (s : List Char) : Bool :=
  (List.range (s.length + 1)).any (fun i => existsTake r (s.drop i))

/-- Test the non-first alternatives of `^pat$`: middle alternatives match
anywhere, the last is end-anchored by the appended `$`. -/
def altsTest : List RE → List Char → Bool
  | [], _ => false
  | [r], s => existsDrop r s
  | r :: rest, s => existsInfix r s || altsTest rest s

/-- `new RegExp("^" + pat + "$").test(s)` for a parsed `pat`: the prepended
`^` anchors only the first top-level alternative and the appended `$` only
the last, so a single alternative means full-string acceptance while several
alternatives are anchored only at the outer ends (e.g. `^a|b$` tests
"starts with a or ends with b"). -/
def anchoredTest (r : RE) (s : List Char) : Bool :=
  match topAlts r with
  | [r1] => r1.accepts s
  | r1 :: rest => existsTake r1 s || altsTest rest s
  | [] => false

/-! ### The compiled pattern -/

/-- The test regexes `SimpleRoute.#parse` synthesises. -/
inductive SegTest where
  | exact (lit : List Char)
  | onePlus
  | zeroPlus
  | regexPat (pat : List Char)
deriving DecidableEq

/-- Evaluate a synthesised test on one candidate segment (`p.test.test(s)`).
`exact` is the anchored escaped literal, `onePlus` the unanchored `/.+/`,
`zeroPlus` the wildcard `/.*/`, `regexPat` the anchored user constraint. -/
def SegTest.eval : SegTest → List Char → Bool
  | .exact lit, s => s = lit
  | .onePlus, s => s.any jsDot
  | .zeroPlus, _ => true
  | .regexPat p, s =>
    match regexParse p with
    | some r => anchoredTest r s
    | none => false

/-- One compiled segment (`RouteConfig` in the source). -/
structure RouteConfig where
  segment : List Char
  name : Option (List Char)
  test : SegTest
  isOptional : Bool
  isSpread : Bool
deriving DecidableEq

/-- Strip a trailing `?` marker, reporting whether one was present. -/
def stripOptional (seg : List Char) : Bool × List Char :=
  if seg.getLast? = some '?' then (true, seg.dropLast) else (false, seg)

/-- Does the (optionality-stripped) segment start with the spread marker `[...`? -/
def isSpreadSeg : List Char → Bool
  | '[' :: '.' :: '.' :: '.' :: _ => true
  | _ => false

/-- The named-segment shape `/^\[(\w.*)]$/`: text wrapped in brackets whose
interior starts with a word character (the greedy `.*` makes the interior run
to the final `]`). -/
def matchBracket (l : List Char) : Option (List Char) :=
  match l with
  | '[' :: rest =>
    if rest.getLast? = some ']' then
      match rest.dropLast with
      | [] => none
      | c :: cs => if isWordChar c && cs.all jsDot then some (c :: cs) else none
    else none
  | _ => none

/-- A valid split position for `/^(\w.*)\((.+)\)$/` on `body` (the interior
with the final `)` removed): `(` at index `i`, a nonempty word-led group
before it and a nonempty group after it, with `.` excluding line
terminators. -/
def validSplit (body : List Char) (i : Nat) : Bool :=
  decide (1 ≤ i) && decide (i + 1 < body.length) && (body.get? i == some '(') &&
  (match body.head? with | some c => isWordChar c | none => false) &&
  ((body.take i).drop 1).all jsDot && (body.drop (i + 1)).all jsDot

/-- The constraint shape `/^(\w.*)\((.+)\)$/` applied to a bracket interior:
the greedy first group picks the last viable `(`, the second group is the
text between it and the final `)`. -/
def constraintSplit (interior : List Char) : Option (List Char × List Char) :=
  if interior.getLast? = some ')' then
    let body := interior.dropLast
    match ((List.range body.length).filter (validSplit body)).getLast? with
    | some i => some (body.take i, body.drop (i + 1))
    | none => none
  else none

/-- Is the raw pattern segment marked optional (trailing `?`)? -/
def segIsOptB (s : List Char) : Bool := (stripOptional s).1

/-- Is the raw pattern segment a spread segment? -/
def segIsSpreadB (s : List Char) : Bool := isSpreadSeg (stripOptional s).2

/-- The raw pattern segment after stripping the optional marker and rewriting
the spread marker `[...x` to `[x` — the `segment` value the compiler stores. -/
def segCore (s : List Char) : List Char :=
  if segIsSpreadB s then '[' :: ((stripOptional s).2.drop 4) else (stripOptional s).2

/-- Is the raw pattern segment the bare wildcard? -/
def segIsWild (s : List Char) : Bool := decide (segCore s = ['*'])

/-- Does the raw pattern segment carry a constraint sub-pattern on which the
`new RegExp` construction — abstracted as the validity predicate `V` —
fails? -/
def segBadConstraint (V : List Char → Bool) (s : List Char) : Bool :=
  if segIsWild s then false
  else
    match matchBracket (segCore s) with
    | none => false
    | some interior =>
      match constraintSplit interior with
      | none => false
      | some pr => !V pr.2

/-- One iteration of `SimpleRoute.#parse`'s reduce: process a single raw
pattern segment given whether it is the last one and the current
`wasSpread` / `wasWildcard` flags; produce the stored `RouteConfig` plus the
updated flags, or the thrown error.  The parameter `V` abstracts success of
the `new RegExp("^" + pat + "$")` construction on the constraint
sub-pattern: the source's `try { new RegExp(...) } catch { throw ... }`
errs exactly when `V` is false. -/
def compileSeg (V : List Char → Bool) (seg : List Char) (isLast ws ww : Bool) :
    Except String (RouteConfig × Bool × Bool) :=
  let isOpt := segIsOptB seg
  let isSpr := segIsSpreadB seg
  if isSpr && isOpt then .error "Spread segment must not be marked as optional"
  else if isSpr && ws then .error "Multiple spread segments are invalid"
  else
    let seg2 := segCore seg
    if seg2 = ['*'] then
      if !isLast then .error "Wildcard can be used only as a last segment"
      else .ok (⟨seg2, none, .zeroPlus, true, isSpr⟩, ws || isSpr, true)
    else
      match matchBracket seg2 with
      | none =>
        .ok (⟨seg2, none, (if ww then .zeroPlus else .exact seg2),
          (ww || isOpt), isSpr⟩, ws || isSpr, ww)
      | some interior =>
        match constraintSplit interior with
        | none =>
          .ok (⟨seg2, some interior, (if ww then .zeroPlus else .onePlus),
            (ww || isOpt), isSpr⟩, ws || isSpr, ww)
        | some pr =>
          if V pr.2 then
            .ok (⟨seg2, some pr.1, (if ww then .zeroPlus else .regexPat pr.2),
              (ww || isOpt), isSpr⟩, ws || isSpr, ww)
          else .error "Invalid regex in route pattern"

/-- `SimpleRoute.#parse`'s reduce over the sanitised pattern segments,
threading the `wasSpread` / `wasWildcard` flags. -/
def compileAux (V : List Char → Bool) :
    List (List Char) → Bool → Bool → Except String (List RouteConfig)
  | [], _, _ => .ok []
  | seg :: rest, ws, ww =>
    match compileSeg V seg rest.isEmpty ws ww with
    | .error e => .error e
    | .ok cw => (compileAux V rest cw.2.1 cw.2.2).map (fun cfgs => cw.1 :: cfgs)

/-- The `SimpleRoute` constructor relative to a `new RegExp` validity
predicate `V`: compile a route pattern string into the segment-descriptor
sequence, or fail. -/
def compileWith (V : List Char → Bool) (route : String) :
    Except String (List RouteConfig) :=
  compileAux V (sanitizeAndSplit route.data) false false

/-- The `SimpleRoute` constructor, instantiated with the executable regex
engine's validity predicate. -/
def compile (route : String) : Except String (List RouteConfig) :=
  compileWith regexValid route

/-- Error detector on compilation results. -/
def isErr : Except String (List RouteConfig) → Bool
  | .error _ => true
  | .ok _ => false

/-- Error detector on per-segment compilation results. -/
def isErrS : Except String (RouteConfig × Bool × Bool) → Bool
  | .error _ => true
  | .ok _ => false

/-- Is some segment other than the last one a wildcard? -/
def hasNonFinalWild : List (List Char) → Bool
  | [] => false
  | [_] => false
  | s :: b :: rest => segIsWild s || hasNonFinalWild (b :: rest)

/-- The spec's description of when compilation fails, given the pending
`wasSpread` flag: more than one spread segment, an optional spread segment, a
non-final wildcard, or a constraint sub-pattern on which the `new RegExp`
construction (the predicate `V`) fails. -/
def specCompileErrorAux (V : List Char → Bool) (segs : List (List Char))
    (ws : Bool) : Bool :=
  decide (2 ≤ (segs.filter segIsSpreadB).length + (if ws then 1 else 0)) ||
  segs.any (fun s => segIsSpreadB s && segIsOptB s) ||
  hasNonFinalWild segs ||
  segs.any (segBadConstraint V)

/-- Spec-side compile-failure condition for a sanitised segment list. -/
def specCompileError (V : List Char → Bool) (segs : List (List Char)) : Bool :=
  specCompileErrorAux V segs false

/-! ### Matching (`SimpleRoute.parse`) -/

/-- `segments.join('/')`. -/
def joinSep (segs : List (List Char)) : List Char :=
  List.intercalate ['/'] segs

/-- The spread-reflow walk over the pattern segments: a non-spread segment
consumes one raw candidate segment; a spread segment followed by more pattern
segments consumes the next `rest.length + 1` raw segments (the JS
`parsed.length - i`) joined into one entry; a final spread segment joins all
remaining raw segments. -/
def reflow : List RouteConfig → List (List Char) → List (List Char)
  | [], _ => []
  | p :: rest, segs =>
    if p.isSpread then
      match rest with
      | [] => [joinSep segs]
      | _ :: _ =>
        joinSep (segs.take (rest.length + 1)) ::
          reflow rest (segs.drop (rest.length + 1))
    else
      segs.take 1 ++ reflow rest (segs.drop 1)

/-- Minimum required segment count: segment `i` counts unless it is optional
and the immediately following segment (if any) is also optional. -/
def reqLen : List RouteConfig → Nat
  | [] => 0
  | p :: rest =>
    (if !p.isOptional ||
        (match rest.head? with | some n => !n.isOptional | none => false)
      then 1 else 0) + reqLen rest

/-- Path part of the candidate: everything before the first `?` when query
parsing is enabled and a `?` is present, the whole candidate otherwise. -/
def pathPart (url : List Char) (allowQ : Bool) : List Char :=
  if allowQ && url.contains '?' then url.takeWhile (· ≠ '?') else url

/-- The query-seeded initial mapping. -/
def seedParams (url : List Char) (allowQ : Bool) : List (String × String) :=
  if allowQ && url.contains '?' then
    parseQueryString ((url.dropWhile (· ≠ '?')).drop 1)
  else []

/-- The segment-by-segment loop of `parse`: driven by the candidate segments,
failing when the pattern runs out or a test rejects, writing decoded captures
(with joint raw fallback) and stopping early after a wildcard segment. -/
def matchLoop : List RouteConfig → List (List Char) → List (String × String) →
    Option (List (String × String))
  | _, [], acc => some acc
  | [], _ :: _, _ => none
  | p :: ps, s :: ss, acc =>
    if !p.test.eval s then none
    else
      let acc1 :=
        match p.name with
        | none => acc
        | some nm =>
          match pctDecode nm, pctDecode s with
          | some dn, some ds => setKV acc (String.mk dn) (String.mk ds)
          | _, _ => setKV acc (String.mk nm) (String.mk s)
      if p.segment = ['*'] then some acc1 else matchLoop ps ss acc1

/-- The candidate segment list actually tested: the sanitised path segments,
reflowed when the pattern contains a spread segment. -/
def candidateSegs (cfgs : List RouteConfig) (url : String) (allowQ : Bool) :
    List (List Char) :=
  let segs0 := sanitizeAndSplit (pathPart url.data allowQ)
  if cfgs.any (·.isSpread) then reflow cfgs segs0 else segs0

/-- `SimpleRoute.parse(url, allowQueryParams)`: `none` models the `null`
no-match sentinel. -/
def parse (cfgs : List RouteConfig) (url : String) (allowQueryParams : Bool) :
    Option (List (String × String)) :=
  let matched0 := seedParams url.data allowQueryParams
  let segs := candidateSegs cfgs url allowQueryParams
  if cfgs.head?.map (·.segment) = some ['*'] then some matched0
  else if segs.length < reqLen cfgs then none
  else matchLoop cfgs segs matched0

/-- The `this.#parsed` field of a `SimpleRoute` instance, as explicit state. -/
structure RouteState where
  parsed : List RouteConfig

/-- State-passing translation of the `parse` method: each use of
`this.#parsed` reads the (in principle mutable) instance state, and the final
state is returned alongside the result. -/
def parseSt (st : RouteState) (url : String) (allowQueryParams : Bool) :
    Option (List (String × String)) × RouteState :=
  let u := url.data
  let matched0 := seedParams u allowQueryParams
  let segs0 := sanitizeAndSplit (pathPart u allowQueryParams)
  let st1 := st
  let segs := if st1.parsed.any (·.isSpread) then reflow st1.parsed segs0 else segs0
  let st2 := st1
  if st2.parsed.head?.map (·.segment) = some ['*'] then (some matched0, st2)
  else
    let st3 := st2
    if segs.length < reqLen st3.parsed then (none, st3)
    else (matchLoop st3.parsed segs matched0, st3)

/-- Compile a route and match a candidate against it, `none` on compile
failure — the composition exercised by the repository's test matrix. -/
def tryMatch (route url : String) : Option (List (String × String)) :=
  match compile route with
  | .ok cfgs => parse cfgs url true
  | .error _ => none

/-- The sequence of (already decoded) capture writes performed by the match
loop, independent of the accumulator it starts from. -/
def matchWrites : List RouteConfig → List (List Char) → Option (List (String × String))
  | _, [] => some []
  | [], _ :: _ => none
  | p :: ps, s :: ss =>
    if !p.test.eval s then none
    else
      let w : List (String × String) :=
        match p.name with
        | none => []
        | some nm =>
          match pctDecode nm, pctDecode s with
          | some dn, some ds => [(String.mk dn, String.mk ds)]
          | _, _ => [(String.mk nm, String.mk s)]
      if p.segment = ['*'] then some w
      else (matchWrites ps ss).map (fun ws => w ++ ws)

/-- Apply a list of capture writes to an accumulator mapping, in order. -/
def applyWrites (acc : List (String × String)) (ws : List (String × String)) :
    List (String × String) :=
  ws.foldl (fun a kv => setKV a kv.1 kv.2) acc

/-- The spec's formulation of the minimum required segment count: segment `i`
counts exactly when it is not optional, or the immediately following segment
exists and is not optional. -/
def reqLenSpec (cfgs : List RouteConfig) : Nat :=
  (List.range cfgs.length).countP (fun i =>
    match cfgs.get? i with
    | some p =>
      !p.isOptional ||
        (match cfgs.get? (i + 1) with | some n => !n.isOptional | none => false)
    | none => false)

end SimpleRoute

namespace SimpleRoute

/-! ### Basic lemmas about the mapping operations -/

theorem getKV_map_upd (m : List (String × String)) (k v : String) :
    getKV (m.map (fun p => if p.1 = k then (k, v) else p)) k =
      if m.any (·.1 = k) then some v else none := by
  induction m with
  | nil => rfl
  | cons p rest ih =>
    by_cases hp : p.1 = k
    · simp [getKV, hp]
    · have hd : (decide (p.1 = k)) = false := decide_eq_false hp
      cases hany : rest.any (fun x => decide (x.1 = k)) with
      | true => simp [getKV, if_neg hp, ih, hany, hd]
      | false => simp [getKV, if_neg hp, ih, hany, hd]

theorem getKV_map_upd_other (m : List (String × String)) (k v k' : String)
    (hk : k' ≠ k) :
    getKV (m.map (fun p => if p.1 = k then (k, v) else p)) k' = getKV m k' := by
  induction m with
  | nil => rfl
  | cons p rest ih =>
    by_cases hp : p.1 = k
    · have h1 : ¬(k = k') := fun hh => hk hh.symm
      have h2 : ¬(p.1 = k') := by rw [hp]; exact h1
      simp [getKV, hp, h1, h2, ih]
    · by_cases hpk : p.1 = k' <;> simp [getKV, hp, hpk, hk, ih]

theorem getKV_none_of_not_any (m : List (String × String)) (k : String)
    (h : m.any (·.1 = k) = false) : getKV m k = none := by
  induction m with
  | nil => rfl
  | cons p rest ih =>
    simp only [List.any_cons, Bool.or_eq_false_iff] at h
    simp [getKV, ih h.2, show ¬(p.1 = k) by simpa using h.1]

theorem getKV_append (m1 m2 : List (String × String)) (k : String) :
    getKV (m1 ++ m2) k =
      match getKV m1 k with
      | some v => some v
      | none => getKV m2 k := by
  induction m1 with
  | nil => simp [getKV]
  | cons p rest ih =>
    by_cases hp : p.1 = k
    · simp [getKV, hp]
    · simp [getKV, hp, ih]

theorem getKV_setKV_self (m : List (String × String)) (k v : String) :
    getKV (setKV m k v) k = some v := by
  unfold setKV
  cases h : m.any (·.1 = k) with
  | true =>
    rw [if_pos (show (true : Bool) = true from rfl), getKV_map_upd, if_pos h]
  | false =>
    rw [if_neg (by simp), getKV_append, getKV_none_of_not_any m k h]
    simp [getKV]

theorem getKV_setKV_other (m : List (String × String)) (k v k' : String)
    (hk : k' ≠ k) : getKV (setKV m k v) k' = getKV m k' := by
  unfold setKV
  cases h : m.any (·.1 = k) with
  | true =>
    rw [if_pos (show (true : Bool) = true from rfl), getKV_map_upd_other m k v k' hk]
  | false =>
    rw [if_neg (by simp), getKV_append]
    cases hg : getKV m k' with
    | some w => simp
    | none => simp [getKV, show ¬(k = k') from fun hh => hk hh.symm]

theorem getKV_applyWrites (ws : List (String × String))
    (acc : List (String × String)) (n : String) :
    getKV (applyWrites acc ws) n =
      match getKV (applyWrites [] ws) n with
      | some v => some v
      | none => getKV acc n := by
  induction ws generalizing acc with
  | nil => simp [applyWrites, getKV]
  | cons kv ws ih =>
    show getKV (applyWrites (setKV acc kv.1 kv.2) ws) n = _
    rw [ih (setKV acc kv.1 kv.2)]
    have hr : applyWrites [] (kv :: ws) = applyWrites (setKV [] kv.1 kv.2) ws := rfl
    rw [hr, ih (setKV [] kv.1 kv.2)]
    cases hg : getKV (applyWrites [] ws) n with
    | some w => simp
    | none =>
      simp only []
      by_cases hn : n = kv.1
      · subst hn
        rw [getKV_setKV_self, getKV_setKV_self]
      · rw [getKV_setKV_other _ _ _ _ hn, getKV_setKV_other _ _ _ _ hn]
        simp [getKV]

/-! ### The match loop versus its write sequence -/

theorem matchLoop_eq_writes (cfgs : List RouteConfig) (segs : List (List Char))
    (acc : List (String × String)) :
    matchLoop cfgs segs acc = (matchWrites cfgs segs).map (applyWrites acc) := by
  induction segs generalizing cfgs acc with
  | nil => cases cfgs <;> simp [matchLoop, matchWrites, applyWrites]
  | cons s ss ih =>
    cases cfgs with
    | nil => simp [matchLoop, matchWrites]
    | cons p ps =>
      simp only [matchLoop, matchWrites]
      by_cases he : p.test.eval s = true
      · rw [he]
        simp only [Bool.not_true, Bool.false_eq_true, if_false]
        by_cases hw : p.segment = ['*']
        · cases hn : p.name with
          | none => simp [hw, applyWrites]
          | some nm =>
            cases hd1 : pctDecode nm <;> cases hd2 : pctDecode s <;>
              simp [hw, hn, hd1, hd2, applyWrites]
        · cases hn : p.name with
          | none =>
            simp only [hn, if_neg hw, ih]
            cases matchWrites ps ss <;> simp [applyWrites]
          | some nm =>
            simp only [hn, if_neg hw, ih]
            cases hd1 : pctDecode nm <;> cases hd2 : pctDecode s <;>
              (cases matchWrites ps ss <;>
                simp [applyWrites, List.foldl_append])
      · have he' : p.test.eval s = false := by
          cases hh : p.test.eval s
          · rfl
          · exact absurd hh he
        rw [he']
        simp

theorem matchLoop_no_name (cfgs : List RouteConfig) (segs : List (List Char))
    (acc : List (String × String)) (h : ∀ p ∈ cfgs, p.name = none) :
    matchLoop cfgs segs acc = none ∨ matchLoop cfgs segs acc = some acc := by
  induction segs generalizing cfgs with
  | nil => cases cfgs <;> simp [matchLoop]
  | cons s ss ih =>
    cases cfgs with
    | nil => simp [matchLoop]
    | cons p ps =>
      simp only [matchLoop]
      have hn : p.name = none := h p (by simp)
      cases he : p.test.eval s with
      | false => simp
      | true =>
        simp only [Bool.not_true, Bool.false_eq_true, if_false, hn]
        by_cases hw : p.segment = ['*']
        · simp [hw]
        · simp only [if_neg hw]
          exact ih ps (fun q hq => h q (by simp [hq]))

/-! ### Splitting lemmas -/

theorem splitChar_ne_nil (l : List Char) (sep : Char) : splitChar l sep ≠ [] := by
  cases l with
  | nil => simp [splitChar]
  | cons c rest =>
    simp only [splitChar]
    split <;> (split <;> simp)

theorem splitChar_append (a r : List Char) (sep : Char) (ha : sep ∉ a) :
    splitChar (a ++ sep :: r) sep = a :: splitChar r sep := by
  induction a with
  | nil =>
    simp only [List.nil_append, splitChar]
    cases hs : splitChar r sep with
    | nil => exact absurd hs (splitChar_ne_nil r sep)
    | cons h t => simp
  | cons x a ih =>
    have hx : x ≠ sep := fun hh => ha (by simp [hh])
    have ha2 : sep ∉ a := fun hh => ha (by simp [hh])
    show (match splitChar (a ++ sep :: r) sep with
      | [] => if x = sep then [[], []] else [[x]]
      | h :: t => if x = sep then [] :: h :: t else (x :: h) :: t) =
      (x :: a) :: splitChar r sep
    rw [ih ha2]
    simp [if_neg hx]

/-! ### Reflow lemmas -/

theorem reflow_nospread (B : List RouteConfig) (segs : List (List Char))
    (hB : ∀ q ∈ B, q.isSpread = false) :
    reflow B segs = segs.take B.length := by
  induction B generalizing segs with
  | nil => simp [reflow]
  | cons p rest ih =>
    have hp : p.isSpread = false := hB p (by simp)
    simp only [reflow, hp, Bool.false_eq_true, if_false]
    rw [ih (segs.drop 1) (fun q hq => hB q (by simp [hq]))]
    rw [List.length_cons, show rest.length + 1 = 1 + rest.length from Nat.add_comm _ _,
      List.take_add]

theorem reflow_spread_last (A : List RouteConfig) (p : RouteConfig)
    (segs : List (List Char)) (hA : ∀ q ∈ A, q.isSpread = false)
    (hp : p.isSpread = true) :
    reflow (A ++ [p]) segs = segs.take A.length ++ [joinSep (segs.drop A.length)] := by
  induction A generalizing segs with
  | nil => simp [reflow, hp]
  | cons a A ih =>
    have ha : a.isSpread = false := hA a (by simp)
    simp only [List.cons_append, reflow, ha, Bool.false_eq_true, if_false,
      List.append_eq]
    rw [ih (segs.drop 1) (fun q hq => hA q (by simp [hq]))]
    have h1 : List.take ((a :: A).length) segs =
        List.take 1 segs ++ List.take A.length (List.drop 1 segs) := by
      rw [List.length_cons, Nat.add_comm, List.take_add]
    have h2 : List.drop ((a :: A).length) segs =
        List.drop A.length (List.drop 1 segs) := by
      simp [List.drop_drop]
    rw [h1, h2, List.append_assoc]

theorem reflow_spread_mid (A : List RouteConfig) (p : RouteConfig)
    (B : List RouteConfig) (segs : List (List Char))
    (hA : ∀ q ∈ A, q.isSpread = false) (hp : p.isSpread = true) (hB : B ≠ []) :
    reflow (A ++ p :: B) segs =
      segs.take A.length ++
        joinSep ((segs.drop A.length).take (B.length + 1)) ::
          reflow B ((segs.drop A.length).drop (B.length + 1)) := by
  induction A generalizing segs with
  | nil =>
    cases B with
    | nil => exact absurd rfl hB
    | cons b bs => simp [reflow, hp]
  | cons a A ih =>
    have ha : a.isSpread = false := hA a (by simp)
    simp only [List.cons_append, reflow, ha, Bool.false_eq_true, if_false,
      List.append_eq]
    rw [ih (segs.drop 1) (fun q hq => hA q (by simp [hq]))]
    have h1 : List.take ((a :: A).length) segs =
        List.take 1 segs ++ List.take A.length (List.drop 1 segs) := by
      rw [List.length_cons, Nat.add_comm, List.take_add]
    have h2 : List.drop ((a :: A).length) segs =
        List.drop A.length (List.drop 1 segs) := by
      simp [List.drop_drop]
    rw [h1, h2, List.append_assoc]

/-! ### Required-length lemmas -/

theorem reqLenSpec_cons (p : RouteConfig) (rest : List RouteConfig) :
    reqLenSpec (p :: rest) =
      (if (!p.isOptional ||
          (match rest.head? with | some n => !n.isOptional | none => false)) = true
        then 1 else 0) + reqLenSpec rest := by
  unfold reqLenSpec
  rw [List.length_cons, List.range_succ_eq_map, List.countP_cons, List.countP_map]
  have hshift :
      (List.countP ((fun i =>
          match (p :: rest).get? i with
          | some q =>
            !q.isOptional ||
              match (p :: rest).get? (i + 1) with
              | some n => !n.isOptional
              | none => false
          | none => false) ∘ Nat.succ) (List.range rest.length)) =
      List.countP (fun i =>
          match rest.get? i with
          | some q =>
            !q.isOptional ||
              match rest.get? (i + 1) with
              | some n => !n.isOptional
              | none => false
          | none => false) (List.range rest.length) :=
    List.countP_congr (fun i _ => Iff.rfl)
  rw [hshift, Nat.add_comm]
  cases rest <;> rfl

theorem reqLen_eq_spec (cfgs : List RouteConfig) : reqLen cfgs = reqLenSpec cfgs := by
  induction cfgs with
  | nil => rfl
  | cons p rest ih =>
    rw [reqLenSpec_cons]
    simp only [reqLen, ih]

theorem reqLen_all_mandatory (cfgs : List RouteConfig)
    (h : ∀ q ∈ cfgs, q.isOptional = false) : reqLen cfgs = cfgs.length := by
  induction cfgs with
  | nil => rfl
  | cons p rest ih =>
    have hp : p.isOptional = false := h p (by simp)
    simp only [reqLen, hp, Bool.not_false, Bool.true_or, if_true, List.length_cons]
    rw [ih (fun q hq => h q (by simp [hq]))]
    exact Nat.add_comm _ _

/-! ### Path-part lemmas -/

theorem pathPart_no_q (u : List Char) : (pathPart u true).contains '?' = false := by
  unfold pathPart
  cases h : u.contains '?' with
  | false => simpa using h
  | true =>
    rw [if_pos (show (true && true) = true from rfl)]
    rw [List.contains_eq_any_beq]
    apply List.any_eq_false.mpr
    intro c hc
    have h3 : ¬(c = '?') := by simpa using List.mem_takeWhile_imp hc
    simp only [beq_iff_eq]
    exact fun hh => h3 hh.symm

theorem pathPart_idem (u : List Char) :
    pathPart (pathPart u true) true = pathPart u true := by
  have h := pathPart_no_q u
  rw [show pathPart (pathPart u true) true =
      (if (true && (pathPart u true).contains '?') = true
        then (pathPart u true).takeWhile (· ≠ '?') else pathPart u true) from rfl]
  rw [h]
  simp

theorem seedParams_pathPart (u : List Char) : seedParams (pathPart u true) true = [] := by
  unfold seedParams
  rw [pathPart_no_q u]
  simp

/-! ### Compilation lemmas -/

theorem stripOptional_not_opt (s : List Char) (h : (stripOptional s).1 = false) :
    (stripOptional s).2 = s := by
  by_cases hc : s.getLast? = some '?'
  · unfold stripOptional at h
    rw [if_pos hc] at h
    cases h
  · unfold stripOptional
    rw [if_neg hc]

theorem isErr_map (x : Except String (List RouteConfig))
    (f : List RouteConfig → List RouteConfig) : isErr (x.map f) = isErr x := by
  cases x <;> rfl

theorem except_map_ok {f : List RouteConfig → List RouteConfig}
    {x : Except String (List RouteConfig)} {b : List RouteConfig}
    (h : x.map f = .ok b) : ∃ a, x = .ok a ∧ b = f a := by
  cases x with
  | error e => cases h
  | ok a =>
    refine ⟨a, rfl, ?_⟩
    injection h with h'
    exact h'.symm

theorem segIsWild_not_spread (s : List Char) (h : segIsWild s = true) :
    segIsSpreadB s = false := by
  unfold segIsWild segCore at h
  cases hs : segIsSpreadB s with
  | false => rfl
  | true =>
    rw [hs] at h
    simp at h

theorem compileSeg_isErr (V : List Char → Bool) (seg : List Char)
    (isLast ws ww : Bool) :
    isErrS (compileSeg V seg isLast ws ww) =
      ((segIsSpreadB seg && segIsOptB seg) || (segIsSpreadB seg && ws) ||
        (segIsWild seg && !isLast) || segBadConstraint V seg) := by
  simp only [compileSeg]
  by_cases h1 : (segIsSpreadB seg && segIsOptB seg) = true
  · rw [if_pos h1]
    simp [isErrS, h1]
  · rw [if_neg h1]
    by_cases h2 : (segIsSpreadB seg && ws) = true
    · rw [if_pos h2]
      simp [isErrS, h2]
    · rw [if_neg h2]
      by_cases h3 : segCore seg = ['*']
      · rw [if_pos h3]
        have hwild : segIsWild seg = true := by simp [segIsWild, h3]
        have hbad : segBadConstraint V seg = false := by simp [segBadConstraint, hwild]
        cases isLast with
        | true => simp [isErrS, h1, h2, hwild, hbad]
        | false => simp [isErrS, hwild]
      · rw [if_neg h3]
        have hwild : segIsWild seg = false := by simp [segIsWild, h3]
        cases hb : matchBracket (segCore seg) with
        | none =>
          have hbad : segBadConstraint V seg = false := by
            simp [segBadConstraint, hwild, hb]
          simp [isErrS, h1, h2, hwild, hbad]
        | some interior =>
          cases hc : constraintSplit interior with
          | none =>
            have hbad : segBadConstraint V seg = false := by
              simp [segBadConstraint, hwild, hb, hc]
            simp [isErrS, h1, h2, hwild, hbad, hc]
          | some pr =>
            cases hr : V pr.2 with
            | false =>
              have hbad : segBadConstraint V seg = true := by
                simp [segBadConstraint, hwild, hb, hc, hr]
              simp [isErrS, hbad, hc, hr]
            | true =>
              have hbad : segBadConstraint V seg = false := by
                simp [segBadConstraint, hwild, hb, hc, hr]
              simp [isErrS, h1, h2, hwild, hbad, hc, hr]

theorem compileSeg_ok (V : List Char → Bool) (seg : List Char)
    (isLast ws ww : Bool) (t : RouteConfig × Bool × Bool)
    (h : compileSeg V seg isLast ws ww = .ok t) :
    t.2.1 = (ws || segIsSpreadB seg) ∧
    t.1.isSpread = segIsSpreadB seg ∧
    t.1.segment = segCore seg ∧
    (t.1.segment = ['*'] → t.1.isOptional = true ∧ isLast = true) ∧
    (t.1.isOptional = false → seg ≠ [] → t.1.segment ≠ []) ∧
    (∀ l, t.1.test = .exact l → l = t.1.segment) ∧
    (t.1.test = .zeroPlus → t.1.isOptional = true) := by
  simp only [compileSeg] at h
  by_cases h1 : (segIsSpreadB seg && segIsOptB seg) = true
  · rw [if_pos h1] at h; exact (Except.noConfusion h)
  · rw [if_neg h1] at h
    by_cases h2 : (segIsSpreadB seg && ws) = true
    · rw [if_pos h2] at h; exact (Except.noConfusion h)
    · rw [if_neg h2] at h
      have hseg2core : segCore seg = segCore seg := rfl
      by_cases h3 : segCore seg = ['*']
      · rw [if_pos h3] at h
        cases hl : isLast with
        | false => rw [hl] at h; exact (Except.noConfusion h)
        | true =>
          rw [hl] at h
          simp only [Bool.not_true, Bool.false_eq_true, if_false] at h
          injection h with h'
          subst h'
          refine ⟨rfl, rfl, rfl, fun _ => ⟨rfl, rfl⟩, ?_, ?_, fun _ => rfl⟩
          · intro ho; cases ho
          · intro l hl2; cases hl2
      · rw [if_neg h3] at h
        have hnempty : segIsOptB seg = false → seg ≠ [] → segCore seg ≠ [] := by
          intro hopt hne
          unfold segCore
          cases hs : segIsSpreadB seg with
          | true => simp
          | false =>
            rw [stripOptional_not_opt seg hopt]
            simpa using hne
        split at h
        · -- matchBracket none: exact-literal segment
          injection h with h'
          subst h'
          refine ⟨rfl, rfl, rfl, fun hw => absurd hw h3, ?_, ?_, ?_⟩
          · intro ho hne
            cases hww : ww with
            | true => rw [hww] at ho; cases ho
            | false =>
              rw [hww] at ho
              simp only [Bool.false_or] at ho
              exact hnempty ho hne
          · intro l hl2
            cases hww : ww with
            | true => rw [hww] at hl2; cases hl2
            | false => rw [hww] at hl2; injection hl2 with h''; exact h''.symm
          · intro hz
            cases hww : ww with
            | true => simp [hww]
            | false => rw [hww] at hz; cases hz
        · -- matchBracket some: named segment
          split at h
          · -- no constraint: one-plus test
            injection h with h'
            subst h'
            refine ⟨rfl, rfl, rfl, fun hw => absurd hw h3, ?_, ?_, ?_⟩
            · intro ho hne
              cases hww : ww with
              | true => rw [hww] at ho; cases ho
              | false =>
                rw [hww] at ho
                simp only [Bool.false_or] at ho
                exact hnempty ho hne
            · intro l hl2
              cases hww : ww with
              | true => rw [hww] at hl2; cases hl2
              | false => rw [hww] at hl2; cases hl2
            · intro hz
              cases hww : ww with
              | true => simp [hww]
              | false => rw [hww] at hz; cases hz
          · -- constraint present: regex test
            split at h
            · injection h with h'
              subst h'
              refine ⟨rfl, rfl, rfl, fun hw => absurd hw h3, ?_, ?_, ?_⟩
              · intro ho hne
                cases hww : ww with
                | true => rw [hww] at ho; cases ho
                | false =>
                  rw [hww] at ho
                  simp only [Bool.false_or] at ho
                  exact hnempty ho hne
              · intro l hl2
                cases hww : ww with
                | true => rw [hww] at hl2; cases hl2
                | false => rw [hww] at hl2; cases hl2
              · intro hz
                cases hww : ww with
                | true => simp [hww]
                | false => rw [hww] at hz; cases hz
            · exact (Except.noConfusion h)

theorem sanitize_ne_nil (l : List Char) : ∀ s ∈ sanitizeAndSplit l, s ≠ [] := by
  intro s hs
  unfold sanitizeAndSplit at hs
  have := List.of_mem_filter hs
  simpa using this

theorem isErr_compileAux (V : List Char → Bool) (segs : List (List Char)) :
    ∀ ws ww : Bool,
    isErr (compileAux V segs ws ww) = specCompileErrorAux V segs ws := by
  induction segs with
  | nil =>
    intro ws ww
    cases ws <;> simp [compileAux, isErr, specCompileErrorAux, hasNonFinalWild]
  | cons seg rest ih =>
    intro ws ww
    cases hcs : compileSeg V seg rest.isEmpty ws ww with
    | error e =>
      have hd := compileSeg_isErr V seg rest.isEmpty ws ww
      rw [hcs] at hd
      have hall : ((segIsSpreadB seg && segIsOptB seg) || (segIsSpreadB seg && ws) ||
          (segIsWild seg && !rest.isEmpty) || segBadConstraint V seg) = true := by
        rw [← hd]; rfl
      have hlhs : isErr (compileAux V (seg :: rest) ws ww) = true := by
        simp [compileAux, hcs, isErr]
      rw [hlhs]
      have hd4 : (((segIsSpreadB seg = true ∧ segIsOptB seg = true) ∨
          (segIsSpreadB seg = true ∧ ws = true)) ∨
          (segIsWild seg = true ∧ ¬rest = [])) ∨
          segBadConstraint V seg = true := by
        simpa using hall
      unfold specCompileErrorAux
      rcases hd4 with ((⟨hsp, ho⟩ | ⟨hsp, hws⟩) | ⟨hw, hl⟩) | h'
      · simp [List.any_cons, hsp, ho]
      · have hcnt : decide (2 ≤ (List.filter segIsSpreadB (seg :: rest)).length +
            (if ws then 1 else 0)) = true := by
          rw [List.filter_cons, if_pos (by simp [hsp]), hws, if_pos rfl]
          simp only [List.length_cons, decide_eq_true_eq]
          omega
        simp [hcnt]
      · cases rest with
        | nil => exact absurd rfl hl
        | cons b bs => simp [hasNonFinalWild, hw]
      · simp [List.any_cons, h']
    | ok cw =>
      have hok := compileSeg_ok V seg rest.isEmpty ws ww cw hcs
      obtain ⟨hws2, _⟩ := hok
      have hd := compileSeg_isErr V seg rest.isEmpty ws ww
      rw [hcs] at hd
      have hall : ((segIsSpreadB seg && segIsOptB seg) || (segIsSpreadB seg && ws) ||
          (segIsWild seg && !rest.isEmpty) || segBadConstraint V seg) = false := by
        rw [← hd]; rfl
      have h1 : (segIsSpreadB seg && segIsOptB seg) = false := by
        by_contra hcon
        rw [Bool.not_eq_false] at hcon
        simp [hcon] at hall
      have h2 : (segIsSpreadB seg && ws) = false := by
        by_contra hcon
        rw [Bool.not_eq_false] at hcon
        simp [hcon] at hall
      have h3 : (segIsWild seg && !rest.isEmpty) = false := by
        by_contra hcon
        rw [Bool.not_eq_false] at hcon
        simp [hcon] at hall
      have h4 : segBadConstraint V seg = false := by
        by_contra hcon
        rw [Bool.not_eq_false] at hcon
        simp [hcon] at hall
      have hlhs : isErr (compileAux V (seg :: rest) ws ww) =
          isErr (compileAux V rest cw.2.1 cw.2.2) := by
        simp [compileAux, hcs, isErr_map]
      rw [hlhs, hws2, ih (ws || segIsSpreadB seg) cw.2.2]
      have hcount : (List.filter segIsSpreadB (seg :: rest)).length +
          (if ws then 1 else 0) =
          (List.filter segIsSpreadB rest).length +
            (if (ws || segIsSpreadB seg) then 1 else 0) := by
        rw [List.filter_cons]
        cases hsp : segIsSpreadB seg with
        | false => simp [hsp]
        | true =>
          have hws : ws = false := by
            cases hws2v : ws with
            | false => rfl
            | true => rw [hsp, hws2v] at h2; cases h2
          simp [hsp, hws]
      have hopt : ((seg :: rest).any fun s => segIsSpreadB s && segIsOptB s) =
          (rest.any fun s => segIsSpreadB s && segIsOptB s) := by
        simp [List.any_cons, h1]
      have hwildp : hasNonFinalWild (seg :: rest) = hasNonFinalWild rest := by
        cases rest with
        | nil => rfl
        | cons b bs =>
          have hw : segIsWild seg = false := by
            rw [show ((b :: bs).isEmpty) = false from rfl] at h3
            simpa using h3
          simp [hasNonFinalWild, hw]
      have hbadp : ((seg :: rest).any (segBadConstraint V)) =
          rest.any (segBadConstraint V) := by
        simp [List.any_cons, h4]
      unfold specCompileErrorAux
      rw [hcount, hopt, hwildp, hbadp]

theorem compileAux_wild_head (V : List Char → Bool) (segs : List (List Char))
    (ws ww : Bool) (q : RouteConfig) (rest : List RouteConfig)
    (h : compileAux V segs ws ww = .ok (q :: rest))
    (hq : q.segment = ['*']) : rest = [] ∧ q.isOptional = true := by
  cases segs with
  | nil =>
    injection h with h'
    cases h'
  | cons seg srest =>
    simp only [compileAux] at h
    cases hcs : compileSeg V seg srest.isEmpty ws ww with
    | error e =>
      rw [hcs] at h
      exact Except.noConfusion h
    | ok cw =>
      rw [hcs] at h
      replace h : (compileAux V srest cw.2.1 cw.2.2).map (fun cfgs => cw.1 :: cfgs) =
          .ok (q :: rest) := h
      obtain ⟨a, ha, hba⟩ := except_map_ok h
      injection hba with hq1 hrest
      have hok := compileSeg_ok V seg srest.isEmpty ws ww cw hcs
      obtain ⟨_, _, _, hwild, _⟩ := hok
      rw [← hq1] at hwild
      obtain ⟨hopt, hlast⟩ := hwild hq
      have hsrest : srest = [] := by
        cases srest with
        | nil => rfl
        | cons b bs => simp at hlast
      subst hsrest
      injection ha with ha'
      constructor
      · rw [hrest, ← ha']
      · exact hopt

theorem compileAux_spread_count (V : List Char → Bool) (segs : List (List Char)) :
    ∀ (ws ww : Bool) (cfgs : List RouteConfig),
    compileAux V segs ws ww = .ok cfgs →
    cfgs.countP (·.isSpread) + (if ws then 1 else 0) ≤ 1 := by
  induction segs with
  | nil =>
    intro ws ww cfgs h
    injection h with h'
    subst h'
    cases ws <;> simp
  | cons seg srest ih =>
    intro ws ww cfgs h
    simp only [compileAux] at h
    cases hcs : compileSeg V seg srest.isEmpty ws ww with
    | error e =>
      rw [hcs] at h
      exact Except.noConfusion h
    | ok cw =>
      rw [hcs] at h
      replace h : (compileAux V srest cw.2.1 cw.2.2).map (fun cfgs => cw.1 :: cfgs) =
          .ok cfgs := h
      obtain ⟨a, ha, hba⟩ := except_map_ok h
      subst hba
      have hok := compileSeg_ok V seg srest.isEmpty ws ww cw hcs
      obtain ⟨hws2, hsp, _⟩ := hok
      have hrec := ih cw.2.1 cw.2.2 a ha
      rw [hws2] at hrec
      have hd := compileSeg_isErr V seg srest.isEmpty ws ww
      rw [hcs] at hd
      have hall : ((segIsSpreadB seg && segIsOptB seg) || (segIsSpreadB seg && ws) ||
          (segIsWild seg && !srest.isEmpty) || segBadConstraint V seg) = false := by
        rw [← hd]; rfl
      have hsw : (segIsSpreadB seg && ws) = false := by
        by_contra hcon
        rw [Bool.not_eq_false] at hcon
        simp [hcon] at hall
      cases hcw : cw.1.isSpread with
      | false =>
        have hspf : segIsSpreadB seg = false := by rw [← hsp, hcw]
        have hpa : ¬((fun x : RouteConfig => x.isSpread) cw.1 = true) := by simp [hcw]
        rw [List.countP_cons_of_neg (fun x : RouteConfig => x.isSpread) a hpa]
        rw [hspf] at hrec
        simpa using hrec
      | true =>
        have hspt : segIsSpreadB seg = true := by rw [← hsp, hcw]
        have hws : ws = false := by
          cases hwsv : ws with
          | false => rfl
          | true => rw [hspt, hwsv] at hsw; cases hsw
        have hpa : ((fun x : RouteConfig => x.isSpread) cw.1 = true) := by simp [hcw]
        rw [List.countP_cons_of_pos (fun x : RouteConfig => x.isSpread) a hpa]
        have hrec2 : a.countP (·.isSpread) + 1 ≤ 1 := by
          rw [hws, hspt] at hrec
          simpa using hrec
        rw [hws, if_neg (by simp)]
        omega

theorem compileAux_invariants (V : List Char → Bool) (segs : List (List Char)) :
    ∀ (ws ww : Bool) (cfgs : List RouteConfig),
    compileAux V segs ws ww = .ok cfgs → (∀ s ∈ segs, s ≠ []) →
    ∀ q ∈ cfgs,
      (q.segment = ['*'] → q.isOptional = true) ∧
      (q.isOptional = false → q.segment ≠ []) ∧
      (∀ l, q.test = .exact l → l = q.segment) ∧
      (q.test = .zeroPlus → q.isOptional = true) := by
  induction segs with
  | nil =>
    intro ws ww cfgs h hne q hq
    injection h with h'
    subst h'
    cases hq
  | cons seg srest ih =>
    intro ws ww cfgs h hne q hq
    simp only [compileAux] at h
    cases hcs : compileSeg V seg srest.isEmpty ws ww with
    | error e =>
      rw [hcs] at h
      exact Except.noConfusion h
    | ok cw =>
      rw [hcs] at h
      replace h : (compileAux V srest cw.2.1 cw.2.2).map (fun cfgs => cw.1 :: cfgs) =
          .ok cfgs := h
      obtain ⟨a, ha, hba⟩ := except_map_ok h
      subst hba
      rcases List.mem_cons.mp hq with hq1 | hq2
      · subst hq1
        have hok := compileSeg_ok V seg srest.isEmpty ws ww cw hcs
        obtain ⟨_, _, _, hwild, hnem, hex, hzp⟩ := hok
        exact ⟨fun hw => (hwild hw).1, fun ho => hnem ho (hne seg (by simp)), hex, hzp⟩
      · exact ih cw.2.1 cw.2.2 a ha (fun s hs => hne s (by simp [hs])) q hq2

theorem matchLoop_append_fail (A : List RouteConfig) (raw : List (List Char))
    (p : RouteConfig) (acc : List (String × String))
    (hlen : A.length = raw.length) (hA : ∀ q ∈ A, q.segment ≠ ['*'])
    (hp : p.test.eval [] = false) :
    matchLoop (A ++ [p]) (raw ++ [[]]) acc = none := by
  induction A generalizing raw acc with
  | nil =>
    cases raw with
    | nil => simp [matchLoop, hp]
    | cons r rs => simp at hlen
  | cons a A ih =>
    cases raw with
    | nil => simp at hlen
    | cons r rs =>
      simp only [List.cons_append, matchLoop]
      cases he : a.test.eval r with
      | false => simp
      | true =>
        have hlen2 : A.length = rs.length := by simpa using hlen
        have hseg : ¬(a.segment = ['*']) := hA a (by simp)
        simp only [Bool.not_true, Bool.false_eq_true, if_false, if_neg hseg]
        exact ih rs _ hlen2 (fun q hq => hA q (by simp [hq]))

end SimpleRoute

/-! ## The claims -/

open SimpleRoute in
/-- C7: compilation of a route pattern fails exactly when the sanitised
segment list has more than one spread segment, an optional spread segment, a
wildcard in non-final position, or a constraint sub-pattern on which the
`new RegExp` construction fails — and succeeds for every other pattern.
Success of `new RegExp` on a constraint sub-pattern is the only step of the
compiler outside the embedding's reach, so it is abstracted as the predicate
`V` and the equivalence is proved for every `V`; instantiating `V` with the
actual ECMAScript validity predicate gives the claim for the source, and
`compile` is the instance at the executable engine's `regexValid`.
(Matching itself is a total function into `Option` in this embedding, so it
raises none of these errors.) -/
theorem claim_C7_compile_errors (V : List Char → Bool) (route : String) :
    isErr (compileWith V route) = specCompileError V (sanitizeAndSplit route.data) := by
  unfold compileWith specCompileError
  exact isErr_compileAux V _ false false

open SimpleRoute in
/-- C8: matching is a pure, deterministic function of
`(pattern, candidate, allowQueryParams)`: the state-passing translation
`parseSt` of the `parse` method returns the instance state unchanged (the
compiled segment sequence is never mutated), and its result is the pure
function `parse` of the inputs, so any two calls with equal inputs return
equal results. -/
theorem claim_C8_parse_pure (st : RouteState) (url : String) (b : Bool) :
    (parseSt st url b).2 = st ∧
    (parseSt st url b).1 = parse st.parsed url b := by
  constructor
  · simp only [parseSt]
    split
    · rfl
    · split <;> split <;> rfl
  · simp only [parseSt, parse, candidateSegs]
    split
    · rfl
    · split <;> split <;> rfl

open SimpleRoute in
/-- C9: in the query-string splitter, a pair whose value itself contains `=`
keeps only the text between the first and second `=` as the value: for
`=`-free `a` and `b`, the key/value extraction of `a ++ "=" ++ b ++ "=" ++ c`
is `(a, b)`, and `parseQueryString "a=b=c"` is the mapping `{a ↦ "b"}`. -/
theorem claim_C9_second_piece :
    (∀ a b c : List Char, '=' ∉ a → '=' ∉ b →
      kvSplit (a ++ '=' :: (b ++ '=' :: c)) = (a, b)) ∧
    parseQueryString "a=b=c".data = [("a", "b")] := by
  constructor
  · intro a b c ha hb
    unfold kvSplit
    rw [splitChar_append a _ '=' ha, splitChar_append b _ '=' hb]
    rfl
  · rfl

open SimpleRoute in
/-- Witness for C9 at `a=b=c`. -/
theorem claim_C9_second_piece_witness :
    '=' ∉ "a".data ∧ '=' ∉ "b".data ∧
    kvSplit ("a".data ++ '=' :: ("b".data ++ '=' :: "c".data)) = ("a".data, "b".data) :=
  ⟨by decide, by decide,
    claim_C9_second_piece.1 "a".data "b".data "c".data (by decide) (by decide)⟩

open SimpleRoute in
/-- C5 counterexample: the query-string splitter does not decode key and
value independently — on input `a%20b=c%` the value fails to decode and the
key is left raw as well, so the decoded key `"a b"` is absent from the
result. -/
theorem claim_C5_counterexample :
    parseQueryString "a%20b=c%".data = [("a%20b", "c%")] ∧
    getKV (parseQueryString "a%20b=c%".data) "a b" = none := ⟨rfl, rfl⟩

open SimpleRoute in
/-- C5 (amended): the query-string splitter strips one leading and one
trailing `&`, splits on `&`, defaults a missing value to the empty string,
percent-decodes key and value of each pair inside one joint fallback — if
decoding either fails the pair keeps both its raw key and raw value — drops
pairs with an empty key, and resolves duplicate keys last-write-wins
(overwrite-in-place mapping semantics, shown by the `setKV`/`getKV` laws). -/
theorem claim_C5_query_splitter :
    (∀ (m : List (String × String)) (k v : String),
      getKV (setKV m k v) k = some v) ∧
    (∀ (m : List (String × String)) (k v k' : String), k' ≠ k →
      getKV (setKV m k v) k' = getKV m k') ∧
    parseQueryString "&a=b&".data = [("a", "b")] ∧
    parseQueryString "a".data = [("a", "")] ∧
    parseQueryString "a=".data = [("a", "")] ∧
    parseQueryString "a%20b=c%20d".data = [("a b", "c d")] ∧
    parseQueryString "a%20b=c%".data = [("a%20b", "c%")] ∧
    parseQueryString "=x&a=b".data = [("a", "b")] ∧
    parseQueryString "a=1&a=2".data = [("a", "2")] :=
  ⟨getKV_setKV_self, fun m k v k' h => getKV_setKV_other m k v k' h,
    rfl, rfl, rfl, rfl, rfl, rfl, rfl⟩

open SimpleRoute in
/-- Witness for C5's keyed-lookup law at concrete keys. -/
theorem claim_C5_query_splitter_witness :
    ("x" : String) ≠ "a" ∧
    getKV (setKV [] "a" "1") "x" = getKV [] "x" :=
  ⟨by decide, claim_C5_query_splitter.2.1 [] "a" "1" "x" (by decide)⟩

open SimpleRoute in
/-- C3 counterexample: matching the compiled pattern `*` does not always
return the empty mapping — a candidate with a query string yields the
query-seeded mapping. -/
theorem claim_C3_counterexample :
    (match compile "*" with
      | .ok cfgs => parse cfgs "/x?a=b" true
      | .error _ => none) = some [("a", "b")] ∧
    some [("a", "b")] ≠ some ([] : List (String × String)) := ⟨rfl, by decide⟩

open SimpleRoute in
/-- C3 (amended): when the first pattern segment is the bare wildcard,
matching succeeds immediately without segment-by-segment checks and returns
the query-seeded mapping — which is the empty mapping whenever the candidate
has no `?` or query parsing is disabled. -/
theorem claim_C3_wildcard_first (cfgs : List RouteConfig) (url : String) (b : Bool)
    (h : cfgs.head?.map (·.segment) = some ['*']) :
    parse cfgs url b = some (seedParams url.data b) ∧
    (url.data.contains '?' = false ∨ b = false → parse cfgs url b = some []) := by
  have h1 : parse cfgs url b = some (seedParams url.data b) := by
    simp only [parse]
    rw [if_pos h]
  refine ⟨h1, ?_⟩
  intro hq
  rw [h1]
  unfold seedParams
  rcases hq with hq | hq
  · rw [hq]; simp
  · rw [hq]; simp

open SimpleRoute in
/-- Witness for C3 at the compiled pattern `*` and a query-free candidate. -/
theorem claim_C3_wildcard_first_witness :
    compile "*" = .ok [⟨"*".data, none, .zeroPlus, true, false⟩] ∧
    parse [⟨"*".data, none, .zeroPlus, true, false⟩] "/anything" true = some [] :=
  ⟨rfl,
    (claim_C3_wildcard_first [⟨"*".data, none, .zeroPlus, true, false⟩]
      "/anything" true rfl).2 (Or.inl (by decide))⟩

open SimpleRoute in
/-- C4 counterexample: a pattern with only literal segments can still return
a non-empty mapping when the candidate carries query parameters. -/
theorem claim_C4_counterexample :
    (match compile "/foo" with
      | .ok cfgs => parse cfgs "/foo?a=b" true
      | .error _ => none) = some [("a", "b")] ∧
    [("a", "b")] ≠ ([] : List (String × String)) := ⟨rfl, by decide⟩

open SimpleRoute in
/-- C4 (amended): for a pattern with zero named, spread, or wildcard
segments, path matching contributes no captures: `match` returns `NoMatch`
or exactly the query-seeded mapping, and for a query-free candidate it
returns `NoMatch` or the empty mapping. -/
theorem claim_C4_captureless (cfgs : List RouteConfig) (url : String) (b : Bool)
    (h : ∀ p ∈ cfgs, p.name = none ∧ p.isSpread = false ∧ p.segment ≠ ['*']) :
    (parse cfgs url b = none ∨ parse cfgs url b = some (seedParams url.data b)) ∧
    (url.data.contains '?' = false →
      parse cfgs url b = none ∨ parse cfgs url b = some []) := by
  have hseed : url.data.contains '?' = false → seedParams url.data b = [] := by
    intro hq; unfold seedParams; rw [hq]; simp
  have hmain : parse cfgs url b = none ∨ parse cfgs url b = some (seedParams url.data b) := by
    simp only [parse]
    have hw : ¬(cfgs.head?.map (·.segment) = some ['*']) := by
      cases cfgs with
      | nil => simp
      | cons p ps =>
        intro hcon
        simp at hcon
        exact (h p (by simp)).2.2 hcon
    rw [if_neg hw]
    by_cases hl : (candidateSegs cfgs url b).length < reqLen cfgs
    · rw [if_pos hl]; exact Or.inl rfl
    · rw [if_neg hl]
      exact matchLoop_no_name cfgs _ _ (fun p hp => (h p hp).1)
  refine ⟨hmain, fun hq => ?_⟩
  rcases hmain with hm | hm
  · exact Or.inl hm
  · right
    rw [hm, hseed hq]

open SimpleRoute in
/-- Witness for C4 at the compiled pattern `/foo` and candidate `/foo`. -/
theorem claim_C4_captureless_witness :
    (∀ p ∈ [(⟨"foo".data, none, .exact "foo".data, false, false⟩ : RouteConfig)],
      p.name = none ∧ p.isSpread = false ∧ p.segment ≠ ['*']) ∧
    (parse [⟨"foo".data, none, .exact "foo".data, false, false⟩] "/foo" true = none ∨
      parse [⟨"foo".data, none, .exact "foo".data, false, false⟩] "/foo" true =
        some (seedParams "/foo".data true)) :=
  ⟨by decide,
    (claim_C4_captureless [⟨"foo".data, none, .exact "foo".data, false, false⟩]
      "/foo" true (by decide)).1⟩

open SimpleRoute in
/-- C1 counterexample: the reflow step is not greedy.  Against pattern
`/[...path]/[file]` the candidate `/a/b/c/d.js` matches as
`{path: "a/b", file: "c"}` (the trailing raw segment `d.js` is silently
dropped), not as the claimed greedy-reserve result
`{path: "a/b/c", file: "d.js"}`. -/
theorem claim_C1_counterexample :
    (match compile "/[...path]/[file]" with
      | .ok cfgs => parse cfgs "/a/b/c/d.js" true
      | .error _ => none) = some [("path", "a/b"), ("file", "c")] ∧
    getKV [("path", "a/b"), ("file", "c")] "path" ≠ some "a/b/c" ∧
    getKV [("path", "a/b"), ("file", "c")] "file" ≠ some "d.js" :=
  ⟨rfl, by decide, by decide⟩

open SimpleRoute in
/-- C1 (amended): for a spread segment followed by `r` more pattern
segments, the reflow step consumes exactly one raw segment per earlier
pattern segment, then exactly `r + 1` raw candidate segments for the spread
(joined with the separator), then one per following pattern segment,
discarding any surplus raw segments — this coincides with greedy-reserve
consumption exactly when the raw count is (pattern length) + r; a final
spread joins all remaining raw segments.  The concrete law
`match(compile("/[...path]/[file]"), "/a/b/c.js") = {path: "a/b",
file: "c.js"}` holds. -/
theorem claim_C1_reflow_window :
    (∀ (A : List RouteConfig) (p : RouteConfig) (B : List RouteConfig)
        (segs : List (List Char)),
      (∀ q ∈ A, q.isSpread = false) → p.isSpread = true → B ≠ [] →
      (∀ q ∈ B, q.isSpread = false) →
      reflow (A ++ p :: B) segs =
        segs.take A.length ++
          joinSep ((segs.drop A.length).take (B.length + 1)) ::
            ((segs.drop A.length).drop (B.length + 1)).take B.length) ∧
    (∀ (A : List RouteConfig) (p : RouteConfig) (segs : List (List Char)),
      (∀ q ∈ A, q.isSpread = false) → p.isSpread = true →
      reflow (A ++ [p]) segs = segs.take A.length ++ [joinSep (segs.drop A.length)]) ∧
    (match compile "/[...path]/[file]" with
      | .ok cfgs => parse cfgs "/a/b/c.js" true
      | .error _ => none) = some [("path", "a/b"), ("file", "c.js")] := by
  refine ⟨?_, ?_, rfl⟩
  · intro A p B segs hA hp hB hB2
    rw [reflow_spread_mid A p B segs hA hp hB, reflow_nospread B _ hB2]
  · intro A p segs hA hp
    exact reflow_spread_last A p segs hA hp

open SimpleRoute in
/-- Witness for C1's reflow window law at the compiled
`/[...path]/[file]` against four raw segments. -/
theorem claim_C1_reflow_window_witness :
    reflow (([] : List RouteConfig) ++
        (⟨"[path]".data, some "path".data, .onePlus, false, true⟩ : RouteConfig) ::
        [⟨"[file]".data, some "file".data, .onePlus, false, false⟩])
      ["a".data, "b".data, "c".data, "d.js".data] = ["a/b".data, "c".data] := by
  have h := claim_C1_reflow_window.1 []
    ⟨"[path]".data, some "path".data, .onePlus, false, true⟩
    [⟨"[file]".data, some "file".data, .onePlus, false, false⟩]
    ["a".data, "b".data, "c".data, "d.js".data]
    (by intro q hq; cases hq) rfl (by decide)
    (by intro q hq
        rcases List.mem_singleton.mp hq with rfl
        rfl)
  exact h.trans (by decide)

open SimpleRoute in
/-- C2: the minimum-required-segment count counts pattern segment `i`
exactly when it is not optional, or the immediately following segment exists
and is not optional (`reqLen` agrees with the indexed spec `reqLenSpec`); a
candidate whose reflowed segment count is below this minimum yields
`NoMatch`; and for pattern `/foo/[bar]?/baz` the candidates `/foo/bar` and
`/foo/baz` both fail while `/foo/bar/baz` yields `{bar: "bar"}`. -/
theorem claim_C2_min_required :
    (∀ cfgs : List RouteConfig, reqLen cfgs = reqLenSpec cfgs) ∧
    (∀ (route : String) (cfgs : List RouteConfig) (url : String) (b : Bool),
      compile route = .ok cfgs →
      (candidateSegs cfgs url b).length < reqLen cfgs →
      parse cfgs url b = none) ∧
    (match compile "/foo/[bar]?/baz" with
      | .ok cfgs => parse cfgs "/foo/bar" true
      | .error _ => none) = none ∧
    (match compile "/foo/[bar]?/baz" with
      | .ok cfgs => parse cfgs "/foo/baz" true
      | .error _ => none) = none ∧
    (match compile "/foo/[bar]?/baz" with
      | .ok cfgs => parse cfgs "/foo/bar/baz" true
      | .error _ => none) = some [("bar", "bar")] := by
  refine ⟨reqLen_eq_spec, ?_, rfl, rfl, rfl⟩
  intro route cfgs url b hc hlen
  replace hc : compileAux regexValid (sanitizeAndSplit route.data) false false =
    .ok cfgs := hc
  simp only [parse]
  by_cases hw : cfgs.head?.map (·.segment) = some ['*']
  · cases cfgs with
    | nil => simp at hw
    | cons q rest =>
      have hq : q.segment = ['*'] := by simpa using hw
      obtain ⟨hrest, hopt⟩ :=
        compileAux_wild_head regexValid (sanitizeAndSplit route.data) false false
          q rest hc hq
      subst hrest
      have hz : reqLen [q] = 0 := by simp [reqLen, hopt]
      rw [hz] at hlen
      exact absurd hlen (Nat.not_lt_zero _)
  · rw [if_neg hw, if_pos hlen]

open SimpleRoute in
/-- Witness for C2's below-minimum law at `/foo/[bar]?/baz` vs `/foo/bar`. -/
theorem claim_C2_min_required_witness :
    compile "/foo/[bar]?/baz" =
      .ok [⟨"foo".data, none, .exact "foo".data, false, false⟩,
        ⟨"[bar]".data, some "bar".data, .onePlus, true, false⟩,
        ⟨"baz".data, none, .exact "baz".data, false, false⟩] ∧
    (candidateSegs [⟨"foo".data, none, .exact "foo".data, false, false⟩,
        ⟨"[bar]".data, some "bar".data, .onePlus, true, false⟩,
        ⟨"baz".data, none, .exact "baz".data, false, false⟩] "/foo/bar" true).length <
      reqLen [⟨"foo".data, none, .exact "foo".data, false, false⟩,
        ⟨"[bar]".data, some "bar".data, .onePlus, true, false⟩,
        ⟨"baz".data, none, .exact "baz".data, false, false⟩] ∧
    parse [⟨"foo".data, none, .exact "foo".data, false, false⟩,
        ⟨"[bar]".data, some "bar".data, .onePlus, true, false⟩,
        ⟨"baz".data, none, .exact "baz".data, false, false⟩] "/foo/bar" true = none :=
  ⟨rfl, by decide,
    claim_C2_min_required.2.1 "/foo/[bar]?/baz"
      [⟨"foo".data, none, .exact "foo".data, false, false⟩,
        ⟨"[bar]".data, some "bar".data, .onePlus, true, false⟩,
        ⟨"baz".data, none, .exact "baz".data, false, false⟩]
      "/foo/bar" true rfl (by decide)⟩

open SimpleRoute in
/-- C6: path-derived captures are written after the query-seeded mapping and
win on key collision: whenever the full candidate matches and the path part
alone matches with a capture `n ↦ v`, the full result also maps `n ↦ v`
regardless of the query seed; in particular
`match(compile("/foo/[bar]"), "/foo/bar?bar=other") = {bar: "bar"}`. -/
theorem claim_C6_path_wins :
    (∀ (cfgs : List RouteConfig) (url : String)
        (m m0 : List (String × String)) (n v : String),
      parse cfgs url true = some m →
      parse cfgs (String.mk (pathPart url.data true)) true = some m0 →
      getKV m0 n = some v → getKV m n = some v) ∧
    (match compile "/foo/[bar]" with
      | .ok cfgs => parse cfgs "/foo/bar?bar=other" true
      | .error _ => none) = some [("bar", "bar")] := by
  refine ⟨?_, rfl⟩
  intro cfgs url m m0 n v h1 h2 h3
  simp only [parse, candidateSegs] at h1 h2
  rw [pathPart_idem, seedParams_pathPart] at h2
  by_cases hw : cfgs.head?.map (·.segment) = some ['*']
  · rw [if_pos hw] at h1 h2
    injection h2 with h2'
    rw [← h2'] at h3
    exact absurd h3 (by simp [getKV])
  · rw [if_neg hw] at h1 h2
    by_cases hl : ((if cfgs.any (·.isSpread) = true
        then reflow cfgs (sanitizeAndSplit (pathPart url.data true))
        else sanitizeAndSplit (pathPart url.data true)).length < reqLen cfgs)
    · rw [if_pos hl] at h1
      exact absurd h1 (by simp)
    · rw [if_neg hl] at h1 h2
      rw [matchLoop_eq_writes] at h1 h2
      cases hmw : matchWrites cfgs
          (if cfgs.any (·.isSpread) = true
            then reflow cfgs (sanitizeAndSplit (pathPart url.data true))
            else sanitizeAndSplit (pathPart url.data true)) with
      | none =>
        rw [hmw] at h1
        exact absurd h1 (by simp)
      | some ws =>
        rw [hmw] at h1 h2
        injection h1 with h1'
        injection h2 with h2'
        subst h1'
        subst h2'
        rw [getKV_applyWrites, h3]

open SimpleRoute in
/-- Witness for C6 at `/foo/[bar]` vs `/foo/bar?bar=other`. -/
theorem claim_C6_path_wins_witness :
    getKV [("bar", "bar")] "bar" = some "bar" :=
  claim_C6_path_wins.1
    [⟨"foo".data, none, .exact "foo".data, false, false⟩,
      ⟨"[bar]".data, some "bar".data, .onePlus, false, false⟩]
    "/foo/bar?bar=other" [("bar", "bar")] [("bar", "bar")] "bar" "bar"
    rfl rfl rfl

open SimpleRoute in
/-- C10 counterexample: a spread segment need not absorb a candidate
segment.  Pattern `/a?/?/[...x]` matches candidate `/a` as `{}` (the empty
reflowed spread entry is tested against the optional empty-literal segment
instead), and the constrained spread `/[...x(.*)]` matches `/` as
`{x: ""}` — both contradict the claimed unconditional `NoMatch`. -/
theorem claim_C10_counterexample :
    (match compile "/a?/?/[...x]" with
      | .ok cfgs => parse cfgs "/a" true
      | .error _ => none) = some [] ∧
    (match compile "/[...x(.*)]" with
      | .ok cfgs => parse cfgs "/" true
      | .error _ => none) = some [("x", "")] ∧
    (sanitizeAndSplit (pathPart "/a".data true)).length = 1 ∧
    (sanitizeAndSplit (pathPart "/".data true)).length = 0 :=
  ⟨rfl, rfl, rfl, rfl⟩

open SimpleRoute in
/-- C10 (amended): for a compiled pattern with a spread segment, no optional
segments, and no user constraint sub-patterns, every candidate that leaves
zero raw segments for the spread to consume yields `NoMatch`: the reflowed
entry for the spread is the empty string and either the minimum-length check
or a segment test (the spread's one-or-more test on the empty string, or an
earlier mandatory segment on it) fails. -/
theorem claim_C10_spread_needs_segment
    (route : String) (cfgs : List RouteConfig) (url : String) (b : Bool)
    (i : Nat) (p : RouteConfig)
    (hc : compile route = .ok cfgs)
    (hopt : ∀ q ∈ cfgs, q.isOptional = false)
    (hreg : ∀ q ∈ cfgs, ∀ pat, q.test ≠ .regexPat pat)
    (hi : cfgs.get? i = some p) (hsp : p.isSpread = true)
    (hm : (sanitizeAndSplit (pathPart url.data b)).length ≤ i) :
    parse cfgs url b = none := by
  replace hc : compileAux regexValid (sanitizeAndSplit route.data) false false =
    .ok cfgs := hc
  have hinv := compileAux_invariants regexValid (sanitizeAndSplit route.data)
    false false cfgs hc (sanitize_ne_nil route.data)
  have hilt : i < cfgs.length := by
    by_contra hcon
    push_neg at hcon
    rw [List.get?_eq_none.mpr hcon] at hi
    cases hi
  obtain ⟨A, B, hdecomp, hAlen⟩ :
      ∃ A B, cfgs = A ++ p :: B ∧ A.length = i := by
    refine ⟨cfgs.take i, cfgs.drop (i + 1), ?_, ?_⟩
    · obtain ⟨hlt, hget⟩ := List.get?_eq_some.mp hi
      conv_lhs => rw [← List.take_append_drop i cfgs]
      congr 1
      rw [List.drop_eq_get_cons hlt, hget]
    · rw [List.length_take]
      exact Nat.min_eq_left (le_of_lt hilt)
  have hcnt := compileAux_spread_count regexValid (sanitizeAndSplit route.data)
    false false cfgs hc
  subst hdecomp
  have hcnt' : (A ++ p :: B).countP (·.isSpread) ≤ 1 := by simpa using hcnt
  rw [List.countP_append,
    List.countP_cons_of_pos (fun x : RouteConfig => x.isSpread) B (by simp [hsp])] at hcnt'
  have hAfree : ∀ q ∈ A, q.isSpread = false := by
    intro q hq
    have hz : A.countP (fun x : RouteConfig => x.isSpread) = 0 := by omega
    have := List.countP_eq_zero.mp hz q hq
    simpa using this
  have hBfree : ∀ q ∈ B, q.isSpread = false := by
    intro q hq
    have hz : B.countP (fun x : RouteConfig => x.isSpread) = 0 := by omega
    have := List.countP_eq_zero.mp hz q hq
    simpa using this
  set raw := sanitizeAndSplit (pathPart url.data b) with hraw
  have hrawle : raw.length ≤ A.length := by rw [hAlen]; exact hm
  have htake : raw.take A.length = raw := List.take_of_length_le hrawle
  have hdropnil : raw.drop A.length = [] := List.drop_eq_nil_of_le hrawle
  have hspread_any : ((A ++ p :: B).any (·.isSpread)) = true :=
    List.any_eq_true.mpr ⟨p, by simp, by simp [hsp]⟩
  have hreflow : reflow (A ++ p :: B) raw = raw ++ [[]] := by
    cases B with
    | nil =>
      rw [reflow_spread_last A p raw hAfree hsp, htake, hdropnil]
      rfl
    | cons b0 bs =>
      rw [reflow_spread_mid A p (b0 :: bs) raw hAfree hsp (by simp), htake, hdropnil]
      rw [show (([] : List (List Char)).drop ((b0 :: bs).length + 1)) = [] from rfl]
      rw [reflow_nospread (b0 :: bs) [] hBfree]
      rfl
  have hreq : reqLen (A ++ p :: B) = (A ++ p :: B).length := reqLen_all_mandatory _ hopt
  have hwcond : ¬(((A ++ p :: B).head?.map (·.segment)) = some ['*']) := by
    intro hcon
    cases A with
    | nil =>
      simp at hcon
      have hth := (hinv p (by simp)).1 hcon
      rw [hopt p (by simp)] at hth
      cases hth
    | cons a A2 =>
      simp at hcon
      have hth := (hinv a (by simp)).1 hcon
      rw [hopt a (by simp)] at hth
      cases hth
  simp only [parse, candidateSegs]
  rw [if_pos hspread_any, if_neg hwcond, hreflow, hreq]
  have hlenAB : (A ++ p :: B).length = A.length + B.length + 1 := by
    simp [List.length_append]
    omega
  by_cases hless : (raw ++ [[]]).length < (A ++ p :: B).length
  · rw [if_pos hless]
  · rw [if_neg hless]
    push_neg at hless
    have hlen1 : (raw ++ [[]]).length = raw.length + 1 := by simp
    rw [hlen1, hlenAB] at hless
    have hBlen0 : B.length = 0 := by omega
    have hBnil := List.eq_nil_of_length_eq_zero hBlen0
    subst hBnil
    have hrawlen : A.length = raw.length := by omega
    have hAstar : ∀ q ∈ A, q.segment ≠ ['*'] := by
      intro q hq hcon
      have hth := (hinv q (by simp [hq])).1 hcon
      rw [hopt q (by simp [hq])] at hth
      cases hth
    have hpeval : p.test.eval [] = false := by
      have hpopt : p.isOptional = false := hopt p (by simp)
      cases hpt : p.test with
      | exact lit =>
        have hlit : lit = p.segment := (hinv p (by simp)).2.2.1 lit hpt
        have hne : p.segment ≠ [] := (hinv p (by simp)).2.1 hpopt
        show (decide (([] : List Char) = lit)) = false
        exact decide_eq_false (fun hh => hne (hlit ▸ hh).symm)
      | onePlus => rfl
      | zeroPlus =>
        have hth := (hinv p (by simp)).2.2.2 hpt
        rw [hpopt] at hth
        cases hth
      | regexPat pat => exact absurd hpt (hreg p (by simp) pat)
    exact matchLoop_append_fail A raw p _ hrawlen hAstar hpeval

open SimpleRoute in
/-- Witness for C10 at `/js/[...path]` vs candidate `/js`. -/
theorem claim_C10_spread_needs_segment_witness :
    compile "/js/[...path]" =
      .ok [⟨"js".data, none, .exact "js".data, false, false⟩,
        ⟨"[path]".data, some "path".data, .onePlus, false, true⟩] ∧
    (sanitizeAndSplit (pathPart "/js".data true)).length ≤ 1 ∧
    parse [⟨"js".data, none, .exact "js".data, false, false⟩,
      ⟨"[path]".data, some "path".data, .onePlus, false, true⟩] "/js" true = none :=
  ⟨rfl, by decide,
    claim_C10_spread_needs_segment "/js/[...path]"
      [⟨"js".data, none, .exact "js".data, false, false⟩,
        ⟨"[path]".data, some "path".data, .onePlus, false, true⟩]
      "/js" true 1 ⟨"[path]".data, some "path".data, .onePlus, false, true⟩
      rfl (by decide)
      (by intro q hq pat
          rcases List.mem_cons.mp hq with rfl | hq2
          · simp
          · rcases List.mem_singleton.mp hq2 with rfl
            simp)
      rfl rfl (by decide)⟩

section ScratchChecks
example : SimpleRoute.sanitizeAndSplit "//foo///bar//".data = ["foo".data, "bar".data] := by decide
example : SimpleRoute.parseQueryString "a=b&c=d".data = [("a", "b"), ("c", "d")] := by decide
example : SimpleRoute.parseQueryString "name=John%20Doe".data = [("name", "John Doe")] := by decide
example : SimpleRoute.parseQueryString "a%20b=c%".data = [("a%20b", "c%")] := by decide
example : SimpleRoute.parseQueryString "a=b=c".data = [("a", "b")] := by decide
example : SimpleRoute.parseQueryString "&a=b&".data = [("a", "b")] := by decide
example : SimpleRoute.parseQueryString "=x&a=b".data = [("a", "b")] := by decide
example : SimpleRoute.parseQueryString "a=1&a=2".data = [("a", "2")] := by decide

open SimpleRoute in
example : compile "/foo/[bar]" =
    .ok [⟨"foo".data, none, .exact "foo".data, false, false⟩,
         ⟨"[bar]".data, some "bar".data, .onePlus, false, false⟩] := by rfl
open SimpleRoute in
example : compile "*" = .ok [⟨"*".data, none, .zeroPlus, true, false⟩] := by rfl
open SimpleRoute in
example : (compile "/[...path]/[file]").toOption =
    some [⟨"[path]".data, some "path".data, .onePlus, false, true⟩,
          ⟨"[file]".data, some "file".data, .onePlus, false, false⟩] := by rfl
open SimpleRoute in
example : (compile "/foo/[...a]/[...b]").toOption = none := by rfl
open SimpleRoute in
example : (compile "/[...a]?").toOption = none := by rfl
open SimpleRoute in
example : (compile "/*/tail").toOption = none := by rfl
open SimpleRoute in
example : (compile "/[id(()]").toOption = none := by rfl
open SimpleRoute in
example : (compile "/[id([0-9]+)]").toOption =
    some [⟨"[id([0-9]+)]".data, some "id".data, .regexPat "[0-9]+".data, false, false⟩] := by rfl
open SimpleRoute in
example : SegTest.eval (.regexPat "[0-9]+".data) "123".data = true := by rfl
open SimpleRoute in
example : SegTest.eval (.regexPat "[0-9]+".data) "abc".data = false := by rfl
open SimpleRoute in
example : SegTest.eval (.regexPat ".*".data) [] = true := by rfl

-- `new RegExp` fidelity of the executable engine: alternation, braced
-- quantifiers, groups and class ranges behave as in ECMAScript.
open SimpleRoute in
example : (compile "/[x(a|b)]").toOption =
    some [⟨"[x(a|b)]".data, some "x".data, .regexPat "a|b".data, false, false⟩] := by rfl
open SimpleRoute in
-- /^a|b$/ anchors only the outer alternatives: "starts with a or ends with b"
example : SegTest.eval (.regexPat "a|b".data) "a".data = true := by rfl
open SimpleRoute in
example : SegTest.eval (.regexPat "a|b".data) "zb".data = true := by rfl
open SimpleRoute in
example : SegTest.eval (.regexPat "a|b".data) "zbz".data = false := by rfl
open SimpleRoute in
example : SegTest.eval (.regexPat "a{2}".data) "aa".data = true := by rfl
open SimpleRoute in
example : SegTest.eval (.regexPat "a{2}".data) "aaa".data = false := by rfl
open SimpleRoute in
example : SegTest.eval (.regexPat "a{2,}".data) "aaaa".data = true := by rfl
open SimpleRoute in
example : SegTest.eval (.regexPat "a{2,3}".data) "aaaa".data = false := by rfl
open SimpleRoute in
example : SegTest.eval (.regexPat "(?:ab)+".data) "abab".data = true := by rfl
open SimpleRoute in
example : SegTest.eval (.regexPat "(?:a|b)c".data) "bc".data = true := by rfl
open SimpleRoute in
example : SegTest.eval (.regexPat "(?:a|b)c".data) "zbc".data = false := by rfl
open SimpleRoute in
example : SegTest.eval (.regexPat "[\\d][a-f]".data) "3c".data = true := by rfl
open SimpleRoute in
example : SegTest.eval (.regexPat "[a-]".data) "-".data = true := by rfl
open SimpleRoute in
-- reversed class range: SyntaxError in ECMAScript, compile error here
example : (compile "/[x([z-a])]").toOption = none := by rfl
open SimpleRoute in
-- out-of-order braced quantifier: SyntaxError in ECMAScript
example : (compile "/[x(a{2,1})]").toOption = none := by rfl
open SimpleRoute in
-- braced quantifier with nothing to repeat: SyntaxError in ECMAScript
example : (compile "/[x({2})]").toOption = none := by rfl
open SimpleRoute in
-- the greedy constraint split leaves the sub-pattern `a|b)c`, whose
-- unmatched `)` is a SyntaxError in ECMAScript as well
example : (compile "/[x((a|b)c)]").toOption = none := by rfl
open SimpleRoute in
example : tryMatch "/[x(a|b)]/tail" "/zb/tail" = some [("x", "zb")] := by rfl

open SimpleRoute

-- replication of the repository's own test matrix (tests/route.test.js)
example : tryMatch "/foo" "/bar" = none := by rfl
example : tryMatch "/foo" "" = none := by rfl
example : tryMatch "/foo/[bar]" "/foo" = none := by rfl
example : tryMatch "/[foo]/bar" "/foo" = none := by rfl
example : tryMatch "/" "" = some [] := by rfl
example : tryMatch "" "///" = some [] := by rfl
example : tryMatch "//foo///bar.baz/" "foo/bar.baz" = some [] := by rfl
example : tryMatch "foo/bar/baz" "//foo//bar/baz//" = some [] := by rfl
example : tryMatch "/[foo]" "/bar" = some [("foo", "bar")] := by rfl
example : tryMatch "#/[foo]/[bar]" "#/baz/bat" = some [("foo", "baz"), ("bar", "bat")] := by rfl
example : tryMatch "/[id([0-9]+)]" "/123" = some [("id", "123")] := by rfl
example : tryMatch "/[id([0-9]+)]" "/foo" = none := by rfl
example : tryMatch "/foo/[bar]/[id([0-9]+)]" "/foo/baz/123" =
    some [("bar", "baz"), ("id", "123")] := by rfl
example : tryMatch "/foo/[id([0-9]+)]/[bar]" "/foo/bar/baz" = none := by rfl
example : tryMatch "/foo/[([0-9]+)]" "/foo/123" = none := by rfl
example : tryMatch "/[foo(bar)]/[baz]" "/bar/bat" = some [("foo", "bar"), ("baz", "bat")] := by rfl
example : tryMatch "/[foo(bar)]/[baz]" "/baz/bat" = none := by rfl
example : tryMatch "/foo/[id%20x]" "/foo/12%203" = some [("id x", "12 3")] := by rfl
example : tryMatch "/foo?" "/" = some [] := by rfl
example : tryMatch "/foo?" "/foo" = some [] := by rfl
example : tryMatch "/foo?" "/bar" = none := by rfl
example : tryMatch "/foo/[bar]?" "/foo" = some [] := by rfl
example : tryMatch "/foo/[bar]?" "/foo/bar" = some [("bar", "bar")] := by rfl
example : tryMatch "/foo/[bar]?" "/foo/bar/baz" = none := by rfl
example : tryMatch "/foo/[bar([0-9]+)]?" "/foo" = some [] := by rfl
example : tryMatch "/foo/[bar([0-9]+)]?" "/foo/bar" = none := by rfl
example : tryMatch "/foo/[bar([0-9]+)]?" "/foo/123" = some [("bar", "123")] := by rfl
example : tryMatch "/foo/[bar]?/baz" "/foo" = none := by rfl
example : tryMatch "/foo/[bar]?/baz" "/foo/bar" = none := by rfl
example : tryMatch "/foo/[bar]?/baz" "/foo/baz" = none := by rfl
example : tryMatch "/foo/[bar]?/baz" "/foo/bar/baz" = some [("bar", "bar")] := by rfl
example : tryMatch "/foo/[bar]?/[baz]?" "/foo/bar/baz" =
    some [("bar", "bar"), ("baz", "baz")] := by rfl
example : tryMatch "/js/[...path]" "/js/foo/bar/baz.js" = some [("path", "foo/bar/baz.js")] := by rfl
example : tryMatch "/js/[root]/[...path]" "/js/foo/bar/baz.js" =
    some [("root", "foo"), ("path", "bar/baz.js")] := by rfl
example : tryMatch "/js/[...path]/[file]" "/js/foo/bar/baz.js" =
    some [("path", "foo/bar"), ("file", "baz.js")] := by rfl
example : tryMatch "/[...path]/[file]" "/foo/bar/baz.js" =
    some [("path", "foo/bar"), ("file", "baz.js")] := by rfl
example : tryMatch "/[f]" "/bar" = some [("f", "bar")] := by rfl
example : tryMatch "/*" "/" = some [] := by rfl
example : tryMatch "/*" "/foo/bar/baz" = some [] := by rfl
example : tryMatch "/foo/*" "/foo" = some [] := by rfl
example : tryMatch "/foo/*" "/foo/bar/baz/x.js" = some [] := by rfl
example : tryMatch "/[foo]/*" "/foo/bar/baz/x.js" = some [("foo", "foo")] := by rfl
example : tryMatch "/[foo]?/*" "/foo/bar" = some [("foo", "foo")] := by rfl
example : tryMatch "/[foo]?/*" "/bar" = some [("foo", "bar")] := by rfl
example : tryMatch "/foo/[bar]/*" "/foo/bar" = some [("bar", "bar")] := by rfl
example : tryMatch "/foo/[bar]" "/foo/bar?baz=ba%20t" =
    some [("baz", "ba t"), ("bar", "bar")] := by rfl
example : tryMatch "/foo/[bar]" "/hoho?bar=bat" = none := by rfl
example : tryMatch "/foo/[bar]" "/foo/bar?bar=bat" = some [("bar", "bar")] := by rfl
open SimpleRoute in
example : (match compile "/foo/[bar]" with
    | .ok cfgs => parse cfgs "/foo/bar?baz=bat" false
    | .error _ => none) = some [("bar", "bar?baz=bat")] := by rfl
open SimpleRoute in
example : (match compile "/foo/[bar]" with
    | .ok cfgs => parse cfgs "/foo/bar/?baz=bat" false
    | .error _ => none) = none := by rfl

-- divergences driving the corrected claims
example : tryMatch "/[...path]/[file]" "/a/b/c/d.js" =
    some [("path", "a/b"), ("file", "c")] := by rfl
example : tryMatch "*" "/x?a=b" = some [("a", "b")] := by rfl
example : tryMatch "/foo" "/foo?a=b" = some [("a", "b")] := by rfl
example : tryMatch "/a?/?/[...x]" "/a" = some [] := by rfl
example : tryMatch "/[...x(.*)]" "/" = some [("x", "")] := by rfl
example : tryMatch "/js/[...path]" "/js" = none := by rfl
end ScratchChecks
